import Mathlib

/-!
Verification of the retrieval-and-evidence pipeline of the team-helper-bot
repository, as a shallow embedding in Lean 4.

Text is modelled as lists of characters, Python floats as rationals, and
Python dicts as association lists.  Component definitions are translated
from the files under src/rag_system/; theorem doc comments cite the claim
they settle.
-/

/-- Python strings are modelled as lists of characters. -/
abbrev Str := List Char

namespace RagSystem

/-! ### Domain models (models/domain.py) -/

/-- Domain model Section (models/domain.py). -/
structure Section where
  section_id : Str
  doc_id : Str
  title : Option Str
  content : Str
  embedding : Option (List ℚ)
  doc_title : Str
  url : Option Str
  breadcrumb : List Str
  has_code : Bool
  has_images : Bool
  deriving DecidableEq

/-- Domain model SearchResult (models/domain.py). -/
structure SearchResult where
  «section» : Section
  vector_score : ℚ
  keyword_score : ℚ
  combined_score : ℚ
  deriving DecidableEq

/-- Domain model RankedSection (models/domain.py). -/
structure RankedSection where
  «section» : Section
  rerank_score : ℚ
  deriving DecidableEq

/-- Domain model Evidence (models/domain.py). -/
structure Evidence where
  «section» : Section
  relevance_score : ℚ
  citation_number : ℕ
  deriving DecidableEq

/-- Confidence literal type of FilteredEvidence (models/domain.py). -/
inductive Confidence where
  | insufficient
  | medium
  | high
  | very_high
  deriving DecidableEq

/-- Domain model FilteredEvidence (models/domain.py). -/
structure FilteredEvidence where
  evidence : List Evidence
  confidence : Confidence
  deriving DecidableEq

/-- Domain model GeneratedAnswer (models/domain.py). -/
structure GeneratedAnswer where
  text : Str
  generation_time_ms : ℕ
  token_count : Option ℕ
  deriving DecidableEq

/-! ### Evidence filter (workers/query/evidence_filter.py) -/

/-- EvidenceConfig (config.py): evidence-filtering thresholds. -/
structure EvidenceConfig where
  min_score : ℚ
  insufficient_threshold : ℕ
  medium_threshold : ℕ
  high_threshold : ℕ
  max_sources : ℕ
  deriving DecidableEq

/-- Default values of EvidenceConfig (config.py lines 73-79). -/
def defaultEvidenceConfig : EvidenceConfig :=
  { min_score := mkRat 3 4
    insufficient_threshold := 2
    medium_threshold := 2
    high_threshold := 3
    max_sources := 5 }

/-- EvidenceFilter._determine_confidence (evidence_filter.py lines 51-66):
a chain of if-tests on the retained source count. -/
def EvidenceFilter.determine_confidence (cfg : EvidenceConfig) (num_sources : ℕ) :
    Confidence :=
  if num_sources ≤ cfg.insufficient_threshold then .insufficient
  else if num_sources < cfg.medium_threshold then .medium
  else if num_sources < cfg.high_threshold then .high
  else .very_high

/-- The quality gate of EvidenceFilter.filter (evidence_filter.py lines 23-27):
keep candidates whose rerank score is at least the configured minimum. -/
def EvidenceFilter.gate (cfg : EvidenceConfig) (s : RankedSection) : Bool :=
  cfg.min_score ≤ s.rerank_score

/-- The evidence-construction loop of EvidenceFilter.filter (lines 37-44):
enumerate the limited list from index i, citation number index + 1. -/
def mkEvidence : ℕ → List RankedSection → List Evidence
  | _, [] => []
  | i, r :: rs =>
      { «section» := r.«section»
        relevance_score := r.rerank_score
        citation_number := i + 1 } :: mkEvidence (i + 1) rs

/-- EvidenceFilter.filter (evidence_filter.py lines 16-49). -/
def EvidenceFilter.filter (cfg : EvidenceConfig)
    (ranked_sections : List RankedSection) (max_sources : ℕ) : FilteredEvidence :=
  let high_quality := ranked_sections.filter (EvidenceFilter.gate cfg)
  let confidence := EvidenceFilter.determine_confidence cfg high_quality.length
  let limited := high_quality.take (min max_sources cfg.max_sources)
  { evidence := mkEvidence 0 limited
    confidence := confidence }

/-- The confidence table of spec section 4.3, written from the spec's words
for comparison with the code's determine_confidence, read row by row with
first-match priority (the rows overlap at the default thresholds, so a
sequential reading is the only consistent one):
n <= insufficient_threshold gives insufficient;
insufficient_threshold < n < medium_threshold gives medium;
medium_threshold <= n < high_threshold gives high;
otherwise (n >= high_threshold) very_high. -/
def specConfidenceTable (cfg : EvidenceConfig) (n : ℕ) : Confidence :=
  if n ≤ cfg.insufficient_threshold then .insufficient
  else if cfg.insufficient_threshold < n ∧ n < cfg.medium_threshold then .medium
  else if cfg.medium_threshold ≤ n ∧ n < cfg.high_threshold then .high
  else .very_high

/-! ### Helper lemmas about the evidence filter -/

theorem mkEvidence_map_citation (i : ℕ) (l : List RankedSection) :
    (mkEvidence i l).map (·.citation_number) = List.range' (i + 1) l.length := by
  induction l generalizing i with
  | nil => simp [mkEvidence]
  | cons r rs ih => simp [mkEvidence, List.range', ih]

theorem mkEvidence_length (i : ℕ) (l : List RankedSection) :
    (mkEvidence i l).length = l.length := by
  induction l generalizing i with
  | nil => rfl
  | cons r rs ih => simp [mkEvidence, ih]

theorem mkEvidence_map_pair (i : ℕ) (l : List RankedSection) :
    (mkEvidence i l).map (fun e => (e.«section», e.relevance_score)) =
      l.map (fun r => (r.«section», r.rerank_score)) := by
  induction l generalizing i with
  | nil => rfl
  | cons r rs ih => simp [mkEvidence, ih]

/-! ### Concrete sample data for witnesses and counterexamples -/

/-- A minimal concrete section used in witnesses. -/
def sectionA : Section :=
  { section_id := [Char.ofNat 97]
    doc_id := [Char.ofNat 100]
    title := none
    content := [Char.ofNat 120]
    embedding := none
    doc_title := [Char.ofNat 68]
    url := none
    breadcrumb := []
    has_code := false
    has_images := false }

/-- A second minimal concrete section used in witnesses. -/
def sectionB : Section :=
  { sectionA with section_id := [Char.ofNat 98], content := [Char.ofNat 121] }

/-- A third minimal concrete section used in witnesses. -/
def sectionC : Section :=
  { sectionA with section_id := [Char.ofNat 99], content := [Char.ofNat 122] }

/-- A candidate above the default quality gate with a modest rerank score. -/
def rankedLow : RankedSection := { «section» := sectionA, rerank_score := mkRat 4 5 }

/-- A candidate above the default quality gate with a high rerank score. -/
def rankedHigh : RankedSection := { «section» := sectionB, rerank_score := mkRat 9 10 }

/-- A third candidate above the default quality gate. -/
def rankedMid : RankedSection := { «section» := sectionC, rerank_score := mkRat 17 20 }

/-! ### Claim theorems C1-C3 -/

/-- C1: for EvidenceFilter.filter with the default evidence configuration and
max_sources at least 1, a FilteredEvidence whose confidence is not
insufficient has a non-empty evidence list, and in every FilteredEvidence the
citation numbers are exactly 1, 2, ..., len(evidence) in list order. -/
theorem C1_filtered_evidence_invariants (ranked : List RankedSection)
    (max_sources : ℕ) (hms : 1 ≤ max_sources) :
    ((EvidenceFilter.filter defaultEvidenceConfig ranked max_sources).confidence ≠
        Confidence.insufficient →
      (EvidenceFilter.filter defaultEvidenceConfig ranked max_sources).evidence ≠ []) ∧
    (EvidenceFilter.filter defaultEvidenceConfig ranked max_sources).evidence.map
        (·.citation_number) =
      List.range' 1
        (EvidenceFilter.filter defaultEvidenceConfig ranked max_sources).evidence.length := by
  constructor
  · intro hconf
    have hn : ¬ ((ranked.filter (EvidenceFilter.gate defaultEvidenceConfig)).length ≤
        defaultEvidenceConfig.insufficient_threshold) := by
      intro hle
      exact hconf (by
        simp only [EvidenceFilter.filter, EvidenceFilter.determine_confidence, if_pos hle])
    intro hempty
    have hlen : (EvidenceFilter.filter defaultEvidenceConfig ranked max_sources).evidence.length
        = 0 := by rw [hempty]; rfl
    have : (min (min max_sources defaultEvidenceConfig.max_sources)
        (ranked.filter (EvidenceFilter.gate defaultEvidenceConfig)).length) = 0 := by
      simpa [EvidenceFilter.filter, mkEvidence_length, List.length_take] using hlen
    have hthr : defaultEvidenceConfig.insufficient_threshold = 2 := rfl
    have hms5 : defaultEvidenceConfig.max_sources = 5 := rfl
    omega
  · simpa [EvidenceFilter.filter] using
      (mkEvidence_map_citation 0
        ((ranked.filter (EvidenceFilter.gate defaultEvidenceConfig)).take
          (min max_sources defaultEvidenceConfig.max_sources))).trans
        (by rw [mkEvidence_length])

/-- Witness for C1 at a concrete input: three qualifying candidates,
max_sources = 2. -/
theorem C1_filtered_evidence_invariants_witness :
    (1 ≤ 2) ∧
    (((EvidenceFilter.filter defaultEvidenceConfig [rankedLow, rankedHigh, rankedMid]
          2).confidence ≠ Confidence.insufficient →
      (EvidenceFilter.filter defaultEvidenceConfig [rankedLow, rankedHigh, rankedMid]
          2).evidence ≠ []) ∧
    (EvidenceFilter.filter defaultEvidenceConfig [rankedLow, rankedHigh, rankedMid]
          2).evidence.map (·.citation_number) =
      List.range' 1
        (EvidenceFilter.filter defaultEvidenceConfig [rankedLow, rankedHigh, rankedMid]
          2).evidence.length) :=
  ⟨by decide, C1_filtered_evidence_invariants [rankedLow, rankedHigh, rankedMid] 2 (by decide)⟩

/-- Counterexample to C2 as stated: the filter keeps the first retained
candidates in input order and never re-sorts by rerank score, so for the
unsorted input [rankedLow, rankedHigh] the returned scores are [4/5, 9/10],
which is not in descending order, and with max_sources = 1 the single kept
item is the lower-scored one rather than the top-scored one. -/
theorem C2_counterexample :
    ((EvidenceFilter.filter defaultEvidenceConfig [rankedLow, rankedHigh] 5).evidence.map
        (·.relevance_score) = [mkRat 4 5, mkRat 9 10] ∧
      ¬ List.Sorted (· ≥ ·)
        ((EvidenceFilter.filter defaultEvidenceConfig [rankedLow, rankedHigh] 5).evidence.map
          (·.relevance_score))) ∧
    (EvidenceFilter.filter defaultEvidenceConfig [rankedLow, rankedHigh] 1).evidence.map
        (·.relevance_score) = [mkRat 4 5] := by
  refine ⟨⟨by decide, ?_⟩, by decide⟩
  intro hsorted
  have h := List.rel_of_sorted_cons
    (show List.Sorted (· ≥ ·) (mkRat 4 5 :: [mkRat 9 10]) by
      have heq : (EvidenceFilter.filter defaultEvidenceConfig [rankedLow, rankedHigh]
          5).evidence.map (·.relevance_score) = [mkRat 4 5, mkRat 9 10] := by decide
      rwa [heq] at hsorted)
    (mkRat 9 10) (by decide)
  revert h
  decide

/-- C2 amended: the evidence list returned by EvidenceFilter.filter consists
of the first min(max_sources, configured max_sources) retained candidates in
input order (the orchestrator's hybrid-fusion order), each carrying its
rerank score as relevance_score; the list is not re-sorted by rerank score. -/
theorem C2_filter_truncates_in_input_order (cfg : EvidenceConfig)
    (ranked : List RankedSection) (max_sources : ℕ) :
    (EvidenceFilter.filter cfg ranked max_sources).evidence.map
        (fun e => (e.«section», e.relevance_score)) =
      ((ranked.filter (EvidenceFilter.gate cfg)).take
          (min max_sources cfg.max_sources)).map
        (fun r => (r.«section», r.rerank_score)) := by
  simpa [EvidenceFilter.filter] using
    mkEvidence_map_pair 0
      ((ranked.filter (EvidenceFilter.gate cfg)).take (min max_sources cfg.max_sources))

/-- C3: the confidence tier is determined solely by the pre-truncation count
of candidates clearing the quality gate, following the spec's table read with
first-match priority; under the default thresholds counts 0, 1, 2 give
insufficient and counts 3, 4 give very_high, and max_sources never changes
the tier. -/
theorem C3_confidence_tier_table :
    (∀ (cfg : EvidenceConfig) (ranked : List RankedSection) (m : ℕ),
      (EvidenceFilter.filter cfg ranked m).confidence =
        EvidenceFilter.determine_confidence cfg
          (ranked.filter (EvidenceFilter.gate cfg)).length) ∧
    (∀ (cfg : EvidenceConfig) (n : ℕ),
      EvidenceFilter.determine_confidence cfg n = specConfidenceTable cfg n) ∧
    (∀ (cfg : EvidenceConfig) (ranked : List RankedSection) (m₁ m₂ : ℕ),
      (EvidenceFilter.filter cfg ranked m₁).confidence =
        (EvidenceFilter.filter cfg ranked m₂).confidence) ∧
    (EvidenceFilter.determine_confidence defaultEvidenceConfig 0 =
        Confidence.insufficient) ∧
    (EvidenceFilter.determine_confidence defaultEvidenceConfig 1 =
        Confidence.insufficient) ∧
    (EvidenceFilter.determine_confidence defaultEvidenceConfig 2 =
        Confidence.insufficient) ∧
    (EvidenceFilter.determine_confidence defaultEvidenceConfig 3 =
        Confidence.very_high) ∧
    (EvidenceFilter.determine_confidence defaultEvidenceConfig 4 =
        Confidence.very_high) := by
  refine ⟨fun cfg ranked m => rfl, fun cfg n => ?_, fun cfg ranked m₁ m₂ => rfl,
    by decide, by decide, by decide, by decide, by decide⟩
  unfold EvidenceFilter.determine_confidence specConfidenceTable
  split_ifs <;> first | rfl | (exfalso; omega)

/-! ### Stable descending sort

Python's sorted(..., key=key, reverse=True) is a stable descending sort; any
stable sort computes the same list, so it is modelled by stable insertion
sort on the key. -/

/-- Insert x into a descending-sorted list, after strictly greater keys and
before equal or smaller ones (x comes first among equal keys, as Python's
stable sort keeps earlier elements of the original list first). -/
def insertDesc {α β : Type _} [LinearOrder β] (key : α → β) (x : α) :
    List α → List α
  | [] => [x]
  | y :: ys => if key x < key y then y :: insertDesc key x ys else x :: y :: ys

/-- Stable insertion sort, descending by key: the model of Python's
sorted(..., key=key, reverse=True). -/
def sortDesc {α β : Type _} [LinearOrder β] (key : α → β) : List α → List α
  | [] => []
  | x :: xs => insertDesc key x (sortDesc key xs)

theorem insertDesc_perm {α β : Type _} [LinearOrder β] (key : α → β) (x : α)
    (l : List α) : List.Perm (insertDesc key x l) (x :: l) := by
  induction l with
  | nil => rfl
  | cons y ys ih =>
      by_cases h : key x < key y
      · simpa [insertDesc, h] using ((ih.cons y).trans (List.Perm.swap x y ys))
      · simp [insertDesc, h]

theorem sortDesc_perm {α β : Type _} [LinearOrder β] (key : α → β)
    (l : List α) : List.Perm (sortDesc key l) l := by
  induction l with
  | nil => rfl
  | cons x xs ih => exact ((insertDesc_perm key x (sortDesc key xs)).trans (ih.cons x))

theorem insertDesc_sorted {α β : Type _} [LinearOrder β] (key : α → β) (x : α)
    (l : List α) (h : l.Pairwise (fun a b => key b ≤ key a)) :
    (insertDesc key x l).Pairwise (fun a b => key b ≤ key a) := by
  induction l with
  | nil => simp [insertDesc]
  | cons y ys ih =>
      rw [List.pairwise_cons] at h
      by_cases hxy : key x < key y
      · rw [insertDesc, if_pos hxy, List.pairwise_cons]
        refine ⟨fun b hb => ?_, ih h.2⟩
        rcases List.mem_cons.mp ((List.Perm.mem_iff (insertDesc_perm key x ys)).mp hb) with
          hb | hb
        · exact hb ▸ le_of_lt hxy
        · exact h.1 b hb
      · rw [insertDesc, if_neg hxy, List.pairwise_cons]
        push_neg at hxy
        refine ⟨fun b hb => ?_, List.pairwise_cons.mpr h⟩
        rcases List.mem_cons.mp hb with hb | hb
        · exact hb ▸ hxy
        · exact le_trans (h.1 b hb) hxy

theorem sortDesc_sorted {α β : Type _} [LinearOrder β] (key : α → β)
    (l : List α) : (sortDesc key l).Pairwise (fun a b => key b ≤ key a) := by
  induction l with
  | nil => exact List.Pairwise.nil
  | cons x xs ih => exact insertDesc_sorted key x (sortDesc key xs) ih

/-! ### Reranker provider (workers/query/reranker.py) -/

/-- One item of the Cohere rerank response: an index into the submitted
texts and a relevance score. -/
structure RerankResultItem where
  index : ℕ
  relevance_score : ℚ
  deriving DecidableEq

/-- The score map of RerankerProvider.score_batch (reranker.py line 59):
a Python dict comprehension over the provider results, so for duplicate
indices the last entry wins.  Lookup of index i. -/
def scoreMapGet (results : List RerankResultItem) (i : ℕ) : Option ℚ :=
  (results.reverse.find? (fun r => r.index == i)).map (·.relevance_score)

/-- RerankerProvider.score_batch (reranker.py lines 45-61): one score per
input text, position i taking the provider's score for index i and
defaulting to 0.0 when the provider returned none. -/
def RerankerProvider.score_batch (results : List RerankResultItem)
    (texts : List Str) : List ℚ :=
  (List.range texts.length).map (fun i => (scoreMapGet results i).getD 0)

/-! ### Hybrid searcher result merging (workers/query/hybrid_searcher.py) -/

/-- HybridSearchConfig (config.py lines 61-65). -/
structure HybridSearchConfig where
  vector_weight : ℚ
  keyword_weight : ℚ
  top_k_candidates : ℕ
  deriving DecidableEq

/-- Default values of HybridSearchConfig (config.py lines 61-65). -/
def defaultHybridSearchConfig : HybridSearchConfig :=
  { vector_weight := mkRat 7 10
    keyword_weight := mkRat 3 10
    top_k_candidates := 25 }

/-- A sub-search result dict (hybrid_searcher.py _vector_search and
_keyword_search): keys are section id strings, values are (Section, score);
a Python dict is an association list with no duplicate keys. -/
abbrev SubSearchDict := List (Str × Section × ℚ)

/-- Python dict.get on a sub-search dict. -/
def dictGet (d : SubSearchDict) (k : Str) : Option (Section × ℚ) :=
  (d.find? (fun p => p.1 == k)).map (·.2)

/-- The loop body of HybridSearcher._merge_results (hybrid_searcher.py lines
106-128) for one id of the key union: look both signals up with 0.0 default,
take the vector result's section when present else the keyword one, and
combine scores with the configured weights. -/
def mergeItem (cfg : HybridSearchConfig)
    (vector_results keyword_results : SubSearchDict) (sid : Str) :
    Option SearchResult :=
  let vector_data := dictGet vector_results sid
  let keyword_data := dictGet keyword_results sid
  let vector_score := (vector_data.map (·.2)).getD 0
  let keyword_score := (keyword_data.map (·.2)).getD 0
  ((vector_data.map (·.1)).orElse (fun _ => keyword_data.map (·.1))).map
    (fun s =>
      { «section» := s
        vector_score := vector_score
        keyword_score := keyword_score
        combined_score :=
          cfg.vector_weight * vector_score + cfg.keyword_weight * keyword_score })

/-- The key union of HybridSearcher._merge_results (line 104): Python's set
union, modelled as the vector keys followed by the keyword-only keys. -/
def unionSectionIds (vector_results keyword_results : SubSearchDict) : List Str :=
  (vector_results.map (·.1)) ++
    ((keyword_results.map (·.1)).filter
      (fun k => ! (vector_results.map (·.1)).contains k))

/-- HybridSearcher._merge_results (hybrid_searcher.py lines 97-137): union
the two key sets, combine scores with configured weights defaulting an
absent signal to 0.0, prefer the vector result's section when both exist,
and sort descending by combined score. -/
def HybridSearcher.merge_results (cfg : HybridSearchConfig)
    (vector_results keyword_results : SubSearchDict) : List SearchResult :=
  let merged := (unionSectionIds vector_results keyword_results).filterMap
    (mergeItem cfg vector_results keyword_results)
  sortDesc (·.combined_score) merged

/-! ### Helper lemmas for the hybrid merge and the reranker -/

theorem filterMap_map_of_forall {α β : Type _} (f : α → Option β) (g : β → α)
    (l : List α) (h : ∀ x ∈ l, ∃ r, f x = some r ∧ g r = x) :
    (l.filterMap f).map g = l := by
  induction l with
  | nil => rfl
  | cons x xs ih =>
      obtain ⟨r, hr, hgr⟩ := h x (List.mem_cons_self x xs)
      rw [List.filterMap_cons, hr, List.map_cons, hgr,
        ih (fun y hy => h y (List.mem_cons_of_mem x hy))]

theorem dictGet_of_mem_keys (d : SubSearchDict) (sid : Str)
    (h : sid ∈ d.map (·.1)) :
    ∃ p ∈ d, p.1 = sid ∧ dictGet d sid = some p.2 := by
  have hsome : (d.find? (fun p => p.1 == sid)).isSome := by
    obtain ⟨p, hp, hkey⟩ := List.mem_map.mp h
    exact List.find?_isSome.mpr ⟨p, hp, by simp [hkey]⟩
  obtain ⟨q, hq⟩ := Option.isSome_iff_exists.mp hsome
  refine ⟨q, List.mem_of_find?_eq_some hq, ?_, by simp [dictGet, hq]⟩
  have := List.find?_some hq
  simpa using this

theorem dictGet_of_not_mem_keys (d : SubSearchDict) (sid : Str)
    (h : sid ∉ d.map (·.1)) : dictGet d sid = none := by
  have : d.find? (fun p => p.1 == sid) = none := by
    rw [List.find?_eq_none]
    intro p hp hkey
    exact h (List.mem_map.mpr ⟨p, hp, by simpa using hkey⟩)
  simp [dictGet, this]

theorem dictGet_some (d : SubSearchDict) (sid : Str) (val : Section × ℚ)
    (h : dictGet d sid = some val) : ∃ p ∈ d, p.1 = sid ∧ p.2 = val := by
  unfold dictGet at h
  cases hf : d.find? (fun p => p.1 == sid) with
  | none => rw [hf] at h; simp at h
  | some p =>
      rw [hf] at h
      simp only [Option.map_some', Option.some.injEq] at h
      exact ⟨p, List.mem_of_find?_eq_some hf, by simpa using List.find?_some hf, h⟩

theorem mergeItem_fields (cfg : HybridSearchConfig)
    (vector_results keyword_results : SubSearchDict) (sid : Str)
    (r : SearchResult)
    (hr : mergeItem cfg vector_results keyword_results sid = some r) :
    r.vector_score = ((dictGet vector_results sid).map (·.2)).getD 0 ∧
    r.keyword_score = ((dictGet keyword_results sid).map (·.2)).getD 0 ∧
    r.combined_score =
      cfg.vector_weight * r.vector_score + cfg.keyword_weight * r.keyword_score ∧
    ((∀ p ∈ vector_results, (p.2.1).section_id = p.1) →
     (∀ p ∈ keyword_results, (p.2.1).section_id = p.1) →
     r.«section».section_id = sid) := by
  simp only [mergeItem] at hr
  obtain ⟨s, hs, hrs⟩ := Option.map_eq_some'.mp hr
  subst hrs
  refine ⟨rfl, rfl, rfl, fun hv hk => ?_⟩
  cases hvd : dictGet vector_results sid with
  | some v =>
      rw [hvd] at hs
      simp only [Option.map_some', Option.some_orElse', Option.some.injEq] at hs
      obtain ⟨p, hp, hkey, hval⟩ := dictGet_some _ _ _ hvd
      have : s = p.2.1 := by rw [← hs, hval]
      rw [this]
      exact hkey ▸ hv p hp
  | none =>
      rw [hvd] at hs
      simp only [Option.map_none', Option.none_orElse'] at hs
      cases hkd : dictGet keyword_results sid with
      | none => rw [hkd] at hs; simp at hs
      | some k =>
          rw [hkd] at hs
          simp only [Option.map_some', Option.some.injEq] at hs
          obtain ⟨p, hp, hkey, hval⟩ := dictGet_some _ _ _ hkd
          have : s = p.2.1 := by rw [← hs, hval]
          rw [this]
          exact hkey ▸ hk p hp

theorem mergeItem_isSome (cfg : HybridSearchConfig)
    (vector_results keyword_results : SubSearchDict) (sid : Str)
    (h : sid ∈ unionSectionIds vector_results keyword_results) :
    (mergeItem cfg vector_results keyword_results sid).isSome := by
  simp only [mergeItem, Option.isSome_map]
  rcases List.mem_append.mp h with hv | hk
  · obtain ⟨p, _, _, hget⟩ := dictGet_of_mem_keys vector_results sid hv
    simp [hget]
  · have hkmem : sid ∈ keyword_results.map (·.1) := (List.mem_filter.mp hk).1
    obtain ⟨p, _, _, hget⟩ := dictGet_of_mem_keys keyword_results sid hkmem
    cases hvd : dictGet vector_results sid with
    | some v => simp [hvd]
    | none => simp [hvd, hget]

theorem unionSectionIds_nodup (vector_results keyword_results : SubSearchDict)
    (hv : (vector_results.map (·.1)).Nodup)
    (hk : (keyword_results.map (·.1)).Nodup) :
    (unionSectionIds vector_results keyword_results).Nodup := by
  rw [unionSectionIds, List.nodup_append]
  refine ⟨hv, hk.filter _, ?_⟩
  intro a ha hafil
  have hcon := (List.mem_filter.mp hafil).2
  rw [Bool.not_eq_eq_eq_not, Bool.not_true] at hcon
  have htrue : (vector_results.map (·.1)).contains a = true :=
    List.elem_eq_true_of_mem ha
  rw [htrue] at hcon
  exact absurd hcon (by simp)

/-! ### Claim theorems C6 and C7 -/

/-- C6: every result of HybridSearcher._merge_results has combined_score
equal to vector_weight * vector_score + keyword_weight * keyword_score
exactly, with a signal's score equal to 0 when the section is absent from
that sub-search; each section identity appears at most once; and the output
is sorted in descending combined_score order.  The hypotheses state that the
sub-search dicts are Python dicts (no duplicate keys) keyed by the section's
own id, as _vector_search and _keyword_search construct them. -/
theorem C6_merge_results_fusion (cfg : HybridSearchConfig)
    (vector_results keyword_results : SubSearchDict)
    (hvnd : (vector_results.map (·.1)).Nodup)
    (hknd : (keyword_results.map (·.1)).Nodup)
    (hvid : ∀ p ∈ vector_results, (p.2.1).section_id = p.1)
    (hkid : ∀ p ∈ keyword_results, (p.2.1).section_id = p.1) :
    (∀ r ∈ HybridSearcher.merge_results cfg vector_results keyword_results,
      r.combined_score =
        cfg.vector_weight * r.vector_score + cfg.keyword_weight * r.keyword_score ∧
      r.vector_score =
        ((dictGet vector_results r.«section».section_id).map (·.2)).getD 0 ∧
      r.keyword_score =
        ((dictGet keyword_results r.«section».section_id).map (·.2)).getD 0) ∧
    ((HybridSearcher.merge_results cfg vector_results keyword_results).map
      (·.«section».section_id)).Nodup ∧
    (HybridSearcher.merge_results cfg vector_results keyword_results).Pairwise
      (fun a b => b.combined_score ≤ a.combined_score) := by
  have heq : HybridSearcher.merge_results cfg vector_results keyword_results =
      sortDesc (fun r : SearchResult => r.combined_score)
        ((unionSectionIds vector_results keyword_results).filterMap
          (mergeItem cfg vector_results keyword_results)) := rfl
  have hmem : ∀ r ∈ HybridSearcher.merge_results cfg vector_results keyword_results,
      ∃ sid, mergeItem cfg vector_results keyword_results sid = some r := by
    intro r hr
    rw [heq] at hr
    have : r ∈ (unionSectionIds vector_results keyword_results).filterMap
        (mergeItem cfg vector_results keyword_results) :=
      (List.Perm.mem_iff (sortDesc_perm (fun r : SearchResult => r.combined_score) _)).mp hr
    obtain ⟨sid, _, hsid⟩ := List.mem_filterMap.mp this
    exact ⟨sid, hsid⟩
  refine ⟨?_, ?_, by rw [heq]; exact sortDesc_sorted _ _⟩
  · intro r hr
    obtain ⟨sid, hsid⟩ := hmem r hr
    obtain ⟨hvs, hks, hcs, hid⟩ :=
      mergeItem_fields cfg vector_results keyword_results sid r hsid
    have hids := hid hvid hkid
    exact ⟨hcs, by rw [hids, hvs], by rw [hids, hks]⟩
  · have hperm : List.Perm
        ((HybridSearcher.merge_results cfg vector_results keyword_results).map
          (·.«section».section_id))
        (((unionSectionIds vector_results keyword_results).filterMap
          (mergeItem cfg vector_results keyword_results)).map
          (·.«section».section_id)) := by
      rw [heq]
      exact (sortDesc_perm (fun r : SearchResult => r.combined_score) _).map _
    rw [List.Perm.nodup_iff hperm,
      filterMap_map_of_forall _ _ _ (fun sid hsid => ?_)]
    · exact unionSectionIds_nodup vector_results keyword_results hvnd hknd
    · obtain ⟨r, hr⟩ := Option.isSome_iff_exists.mp
        (mergeItem_isSome cfg vector_results keyword_results sid hsid)
      exact ⟨r, hr,
        (mergeItem_fields cfg vector_results keyword_results sid r hr).2.2.2 hvid hkid⟩

/-- Witness for C6 at concrete sub-search dicts: sectionA in both
sub-searches, sectionB only in the keyword sub-search. -/
theorem C6_merge_results_fusion_witness :
    ((([(sectionA.section_id, sectionA, mkRat 1 2)] : SubSearchDict).map
        (·.1)).Nodup ∧
     (([(sectionA.section_id, sectionA, mkRat 1 3),
        (sectionB.section_id, sectionB, mkRat 1 4)] : SubSearchDict).map
        (·.1)).Nodup) ∧
    ((∀ r ∈ HybridSearcher.merge_results defaultHybridSearchConfig
        [(sectionA.section_id, sectionA, mkRat 1 2)]
        [(sectionA.section_id, sectionA, mkRat 1 3),
         (sectionB.section_id, sectionB, mkRat 1 4)],
      r.combined_score = defaultHybridSearchConfig.vector_weight * r.vector_score +
        defaultHybridSearchConfig.keyword_weight * r.keyword_score ∧
      r.vector_score =
        ((dictGet [(sectionA.section_id, sectionA, mkRat 1 2)]
          r.«section».section_id).map (·.2)).getD 0 ∧
      r.keyword_score =
        ((dictGet [(sectionA.section_id, sectionA, mkRat 1 3),
          (sectionB.section_id, sectionB, mkRat 1 4)]
          r.«section».section_id).map (·.2)).getD 0) ∧
    ((HybridSearcher.merge_results defaultHybridSearchConfig
        [(sectionA.section_id, sectionA, mkRat 1 2)]
        [(sectionA.section_id, sectionA, mkRat 1 3),
         (sectionB.section_id, sectionB, mkRat 1 4)]).map
      (·.«section».section_id)).Nodup ∧
    (HybridSearcher.merge_results defaultHybridSearchConfig
        [(sectionA.section_id, sectionA, mkRat 1 2)]
        [(sectionA.section_id, sectionA, mkRat 1 3),
         (sectionB.section_id, sectionB, mkRat 1 4)]).Pairwise
      (fun a b => b.combined_score ≤ a.combined_score)) :=
  ⟨⟨by decide, by decide⟩,
    C6_merge_results_fusion defaultHybridSearchConfig
      [(sectionA.section_id, sectionA, mkRat 1 2)]
      [(sectionA.section_id, sectionA, mkRat 1 3),
       (sectionB.section_id, sectionB, mkRat 1 4)]
      (by decide) (by decide) (by decide) (by decide)⟩

/-- C7: score_batch returns exactly one score per input text, position i
carrying the provider's relevance score for index i when one was returned
and 0.0 otherwise, never dropping or reordering entries.  The hypothesis
states that the provider returns each index at most once. -/
theorem C7_score_batch_positional_integrity (results : List RerankResultItem)
    (texts : List Str) (hnodup : (results.map (·.index)).Nodup) :
    (RerankerProvider.score_batch results texts).length = texts.length ∧
    (∀ r ∈ results, r.index < texts.length →
      (RerankerProvider.score_batch results texts).getD r.index 0 =
        r.relevance_score) ∧
    (∀ i, i < texts.length → i ∉ results.map (·.index) →
      (RerankerProvider.score_batch results texts).getD i 0 = 0) := by
  have hlen : (RerankerProvider.score_batch results texts).length = texts.length := by
    simp [RerankerProvider.score_batch]
  have hget : ∀ i, i < texts.length →
      (RerankerProvider.score_batch results texts).getD i 0 =
        (scoreMapGet results i).getD 0 := by
    intro i hi
    rw [RerankerProvider.score_batch, List.getD_eq_getElem?_getD,
      List.getElem?_map, List.getElem?_range hi]
    rfl
  refine ⟨hlen, fun r hr hri => ?_, fun i hi hni => ?_⟩
  · rw [hget r.index hri]
    have hsome : (results.reverse.find? (fun q => q.index == r.index)).isSome :=
      List.find?_isSome.mpr ⟨r, List.mem_reverse.mpr hr, by simp⟩
    obtain ⟨q, hq⟩ := Option.isSome_iff_exists.mp hsome
    have hqmem : q ∈ results := List.mem_reverse.mp (List.mem_of_find?_eq_some hq)
    have hqidx : q.index = r.index := by simpa using List.find?_some hq
    have hqr : q = r := List.inj_on_of_nodup_map hnodup hqmem hr hqidx
    simp [scoreMapGet, hq, hqr]
  · rw [hget i hi]
    have hnone : results.reverse.find? (fun q => q.index == i) = none := by
      rw [List.find?_eq_none]
      intro q hq hqi
      exact hni (List.mem_map.mpr ⟨q, List.mem_reverse.mp hq, by simpa using hqi⟩)
    simp [scoreMapGet, hnone]

/-- Witness for C7: five texts, provider scores only for indices 0, 2, 4;
the returned list has five entries with positions 1 and 3 equal to 0. -/
theorem C7_score_batch_positional_integrity_witness :
    (([⟨0, mkRat 1 2⟩, ⟨2, mkRat 3 4⟩, ⟨4, mkRat 1 4⟩] :
        List RerankResultItem).map (·.index)).Nodup ∧
    ((RerankerProvider.score_batch
        [⟨0, mkRat 1 2⟩, ⟨2, mkRat 3 4⟩, ⟨4, mkRat 1 4⟩]
        [[Char.ofNat 116], [Char.ofNat 116], [Char.ofNat 116],
         [Char.ofNat 116], [Char.ofNat 116]]).length = 5 ∧
     (RerankerProvider.score_batch
        [⟨0, mkRat 1 2⟩, ⟨2, mkRat 3 4⟩, ⟨4, mkRat 1 4⟩]
        [[Char.ofNat 116], [Char.ofNat 116], [Char.ofNat 116],
         [Char.ofNat 116], [Char.ofNat 116]]).getD 1 0 = 0 ∧
     (RerankerProvider.score_batch
        [⟨0, mkRat 1 2⟩, ⟨2, mkRat 3 4⟩, ⟨4, mkRat 1 4⟩]
        [[Char.ofNat 116], [Char.ofNat 116], [Char.ofNat 116],
         [Char.ofNat 116], [Char.ofNat 116]]).getD 3 0 = 0 ∧
     (RerankerProvider.score_batch
        [⟨0, mkRat 1 2⟩, ⟨2, mkRat 3 4⟩, ⟨4, mkRat 1 4⟩]
        [[Char.ofNat 116], [Char.ofNat 116], [Char.ofNat 116],
         [Char.ofNat 116], [Char.ofNat 116]]).getD 2 0 = mkRat 3 4) := by
  have hnd : (([⟨0, mkRat 1 2⟩, ⟨2, mkRat 3 4⟩, ⟨4, mkRat 1 4⟩] :
      List RerankResultItem).map (·.index)).Nodup := by decide
  refine ⟨hnd, ?_, ?_, ?_, ?_⟩
  · exact (C7_score_batch_positional_integrity _ _ hnd).1
  · exact (C7_score_batch_positional_integrity _ _ hnd).2.2 1 (by decide) (by decide)
  · exact (C7_score_batch_positional_integrity _ _ hnd).2.2 3 (by decide) (by decide)
  · exact (C7_score_batch_positional_integrity
      [⟨0, mkRat 1 2⟩, ⟨2, mkRat 3 4⟩, ⟨4, mkRat 1 4⟩] _ hnd).2.1
      ⟨2, mkRat 3 4⟩ (by decide) (by decide)

/-! ### Text infrastructure: decimal numbers, lines and joining -/

/-- The character of one decimal digit (used to model Python decimal
formatting of naturals). -/
def digitChar : ℕ → Char
  | 0 => '0'
  | 1 => '1'
  | 2 => '2'
  | 3 => '3'
  | 4 => '4'
  | 5 => '5'
  | 6 => '6'
  | 7 => '7'
  | 8 => '8'
  | _ => '9'

/-- Decimal rendering of a natural number, most significant digit first:
the model of Python str(n) inside f-strings. -/
def natToStr (n : ℕ) : Str :=
  if n = 0 then ['0'] else ((Nat.digits 10 n).map digitChar).reverse

/-- Decimal parsing of a digit string: the model of Python int(s). -/
def parseNat (s : Str) : ℕ :=
  s.foldl (fun a c => 10 * a + (c.toNat - 48)) 0

theorem digitChar_isDigit (d : ℕ) (h : d < 10) : (digitChar d).isDigit := by
  interval_cases d <;> decide

theorem digitChar_toNat (d : ℕ) (h : d < 10) : (digitChar d).toNat - 48 = d := by
  interval_cases d <;> decide

theorem natToStr_all_digits (n : ℕ) : ∀ c ∈ natToStr n, c.isDigit := by
  intro c hc
  unfold natToStr at hc
  split at hc
  · rw [List.mem_singleton] at hc
    subst hc
    decide
  · rw [List.mem_reverse] at hc
    obtain ⟨d, hd, rfl⟩ := List.mem_map.mp hc
    exact digitChar_isDigit d (Nat.digits_lt_base (by norm_num) hd)

theorem natToStr_ne_nil (n : ℕ) : natToStr n ≠ [] := by
  unfold natToStr
  split
  · simp
  · simpa using Nat.digits_ne_nil_iff_ne_zero.mpr (by assumption)

theorem foldl_parse_digits (L : List ℕ) (hL : ∀ d ∈ L, d < 10) (a : ℕ) :
    ((L.map digitChar).reverse).foldl (fun acc c => 10 * acc + (c.toNat - 48)) a =
      a * 10 ^ L.length + Nat.ofDigits 10 L := by
  induction L generalizing a with
  | nil => simp
  | cons d L ih =>
      have hd : d < 10 := hL d (List.mem_cons_self d L)
      have hrest : ∀ x ∈ L, x < 10 := fun x hx => hL x (List.mem_cons_of_mem d hx)
      simp only [List.map_cons, List.reverse_cons, List.foldl_append, List.foldl_cons,
        List.foldl_nil]
      rw [ih hrest a, digitChar_toNat d hd, Nat.ofDigits_cons]
      simp only [List.length_cons, pow_succ]
      ring

theorem parseNat_natToStr (n : ℕ) : parseNat (natToStr n) = n := by
  unfold parseNat natToStr
  split
  · subst (by assumption : n = 0)
    decide
  · rw [foldl_parse_digits (Nat.digits 10 n)
      (fun d hd => Nat.digits_lt_base (by norm_num) hd) 0, Nat.ofDigits_digits]
    simp

/-- Split a text into its lines at newline characters: the model of the
line starts that a Python re.MULTILINE caret anchors to. -/
def splitOnNl : Str → List Str
  | [] => [[]]
  | c :: rest =>
      if c = '\n' then [] :: splitOnNl rest
      else (c :: (splitOnNl rest).headI) :: (splitOnNl rest).tail

/-- Join parts with a newline separator: the model of a Python
str.join with separator a newline. -/
def joinNl : List Str → Str
  | [] => []
  | [p] => p
  | p :: ps => p ++ '\n' :: joinNl ps

theorem joinNl_cons (p : Str) (ps : List Str) (h : ps ≠ []) :
    joinNl (p :: ps) = p ++ '\n' :: joinNl ps := by
  cases ps with
  | nil => cases h rfl
  | cons q qs => rfl

theorem splitOnNl_ne_nil (s : Str) : splitOnNl s ≠ [] := by
  induction s with
  | nil => simp [splitOnNl]
  | cons c rest ih =>
      unfold splitOnNl
      split <;> simp

theorem splitOnNl_cons_nl (rest : Str) :
    splitOnNl ('\n' :: rest) = [] :: splitOnNl rest := rfl

theorem splitOnNl_cons_ne (c : Char) (rest : Str) (hc : c ≠ '\n') :
    splitOnNl (c :: rest) =
      (c :: (splitOnNl rest).headI) :: (splitOnNl rest).tail := by
  conv_lhs => rw [splitOnNl]
  rw [if_neg hc]

theorem splitOnNl_append_nl (a b : Str) :
    splitOnNl (a ++ '\n' :: b) = splitOnNl a ++ splitOnNl b := by
  induction a with
  | nil => simp [splitOnNl]
  | cons c a ih =>
      by_cases hc : c = '\n'
      · subst hc
        rw [List.cons_append, splitOnNl_cons_nl, splitOnNl_cons_nl, ih,
          List.cons_append]
      · rw [List.cons_append, splitOnNl_cons_ne c _ hc, splitOnNl_cons_ne c a hc, ih]
        cases h : splitOnNl a with
        | nil => exact absurd h (splitOnNl_ne_nil a)
        | cons l ls => simp

theorem splitOnNl_no_nl (s : Str) (h : '\n' ∉ s) : splitOnNl s = [s] := by
  induction s with
  | nil => rfl
  | cons c rest ih =>
      have hc : c ≠ '\n' := fun hcc => h (hcc ▸ List.mem_cons_self c rest)
      have hrest : '\n' ∉ rest := fun hr => h (List.mem_cons_of_mem c hr)
      rw [splitOnNl_cons_ne c rest hc, ih hrest]
      rfl

theorem splitOnNl_joinNl (parts : List Str) (h : parts ≠ []) :
    splitOnNl (joinNl parts) = parts.flatMap splitOnNl := by
  induction parts with
  | nil => cases h rfl
  | cons p ps ih =>
      cases ps with
      | nil => simp [joinNl, List.flatMap_cons]
      | cons q qs =>
          rw [joinNl_cons p (q :: qs) (by simp), splitOnNl_append_nl,
            ih (by simp)]
          simp [List.flatMap_cons]

theorem filterMap_flatMap {α β γ : Type _} (l : List α) (g : α → List β)
    (f : β → Option γ) :
    (l.flatMap g).filterMap f = l.flatMap (fun a => (g a).filterMap f) := by
  induction l with
  | nil => rfl
  | cons x xs ih => simp [List.flatMap_cons, List.filterMap_append, ih]

theorem foldl_max_range' (k : ℕ) : (List.range' 1 k).foldl max 0 = k := by
  induction k with
  | zero => rfl
  | succ k ih =>
      rw [List.range'_concat, List.foldl_append, ih]
      simp only [List.foldl_cons, List.foldl_nil]
      omega

/-- The leftmost match of the Python regular expression that anchors a
bracketed integer at the start of one line (answer_generator.py line 89):
an opening bracket, one or more digits, a closing bracket; returns the
parsed integer when the line matches. -/
def lineCitation : Str → Option ℕ
  | [] => none
  | c :: rest =>
      if c = '[' then
        let ds := rest.takeWhile (·.isDigit)
        if (rest.drop ds.length).head? = some ']' ∧ ¬ ds.isEmpty then
          some (parseNat ds)
        else none
      else none

theorem lineCitation_not_bracket (c : Char) (rest : Str) (h : c ≠ '[') :
    lineCitation (c :: rest) = none := by
  simp [lineCitation, h]

theorem takeWhile_digits_append_bracket (a b : Str)
    (ha : ∀ c ∈ a, c.isDigit) :
    (a ++ ']' :: b).takeWhile (·.isDigit) = a := by
  induction a with
  | nil => simp [List.takeWhile_cons]
  | cons c cs ih =>
      rw [List.cons_append, List.takeWhile_cons]
      simp only [ha c (List.mem_cons_self c cs),
        ih (fun x hx => ha x (List.mem_cons_of_mem c hx))]
      simp

theorem lineCitation_marker (n : ℕ) (b : Str) :
    lineCitation ('[' :: (natToStr n ++ ']' :: b)) = some n := by
  have hds : (natToStr n ++ ']' :: b).takeWhile (·.isDigit) = natToStr n :=
    takeWhile_digits_append_bracket (natToStr n) b (natToStr_all_digits n)
  unfold lineCitation
  simp only [hds, List.drop_left, List.head?_cons, reduceIte]
  rw [if_pos ⟨trivial, by simpa using natToStr_ne_nil n⟩, parseNat_natToStr]

/-! ### Context builder (workers/query/context_builder.py) and the
citation-label scan of the answer generator -/

/-- Python sep.join(parts) (used for the breadcrumb path,
context_builder.py line 30). -/
def joinSep (sep : Str) : List Str → Str
  | [] => []
  | [x] => x
  | x :: xs => x ++ sep ++ joinSep sep xs

/-- Concatenation of newline-terminated lines: the header of
ContextBuilder.build is assembled by concatenating f-strings each ending
in a newline (context_builder.py lines 23-31). -/
def terminatedLines (ls : List Str) : Str :=
  ls.flatMap (fun l => l ++ ['\n'])

/-- The lines of the header part built for one evidence item
(context_builder.py lines 22-31): citation tag, document title, optional
section title (skipped when None or empty, Python truthiness), optional
breadcrumb path (skipped when the list is empty). -/
def headerLines (ev : Evidence) : List Str :=
  ('[' :: (natToStr ev.citation_number ++ [']'])) ::
    ("Document: ".data ++ ev.«section».doc_title) ::
    ((match ev.«section».title with
      | some t => if t.isEmpty then [] else ["Section: ".data ++ t]
      | none => []) ++
     (if ev.«section».breadcrumb.isEmpty then []
      else ["Path: ".data ++ joinSep " > ".data ev.«section».breadcrumb]))

/-- The parts appended to context_parts for one evidence item by
ContextBuilder.build (context_builder.py lines 19-46); images models the
side store lookup _get_image_descriptions keyed by section id. -/
def evidenceParts (images : Str → List Str) (ev : Evidence) : List Str :=
  [terminatedLines (headerLines ev)] ++
    (if ev.«section».has_images ∧ ¬ (images ev.«section».section_id).isEmpty then
      ('\n' :: "[Images in this section]".data) ::
        ((images ev.«section».section_id).map (fun d => "- ".data ++ d)) ++ [[]]
     else []) ++
    ["Content:".data ++ '\n' :: (ev.«section».content ++ ['\n'])] ++
    [List.replicate 80 '-' ++ ['\n']]

/-- ContextBuilder.build (context_builder.py lines 15-48): the parts of all
evidence items in order, joined with a newline. -/
def ContextBuilder.build (images : Str → List Str) (evidence : List Evidence) :
    Str :=
  joinNl (evidence.flatMap (evidenceParts images))

/-- The citation-label scan of AnswerGenerator._build_user_prompt
(answer_generator.py lines 88-90): Python re.findall of a multiline pattern
matching a bracketed integer at a line start, int conversion, and max with
default 0 on an empty match list. -/
def AnswerGenerator.max_source (context : Str) : ℕ :=
  ((splitOnNl context).filterMap lineCitation).foldl max 0

theorem splitOnNl_terminatedLines (ls : List Str) (h : ∀ l ∈ ls, '\n' ∉ l) :
    splitOnNl (terminatedLines ls) = ls ++ [[]] := by
  induction ls with
  | nil => rfl
  | cons l ls ih =>
      have hstep : terminatedLines (l :: ls) = l ++ '\n' :: terminatedLines ls := by
        simp [terminatedLines, List.flatMap_cons]
      rw [hstep, splitOnNl_append_nl, splitOnNl_no_nl l (h l (List.mem_cons_self l ls)),
        ih (fun x hx => h x (List.mem_cons_of_mem l hx))]
      simp

theorem not_nl_of_isDigit (c : Char) (h : c.isDigit) : c ≠ '\n' := by
  intro hc
  subst hc
  exact absurd h (by decide)

theorem nl_not_mem_marker (n : ℕ) : '\n' ∉ '[' :: (natToStr n ++ [']']) := by
  intro hmem
  rcases List.mem_cons.mp hmem with h | h
  · exact absurd h.symm (by decide)
  · rcases List.mem_append.mp h with h | h
    · exact absurd rfl (not_nl_of_isDigit '\n' (natToStr_all_digits n _ h)).symm
    · rw [List.mem_singleton] at h
      exact absurd h.symm (by decide)

theorem header_citations (ev : Evidence)
    (hdoc : '\n' ∉ ev.«section».doc_title)
    (htitle : ∀ t, ev.«section».title = some t → '\n' ∉ t)
    (hbc : '\n' ∉ joinSep " > ".data ev.«section».breadcrumb) :
    (splitOnNl (terminatedLines (headerLines ev))).filterMap lineCitation =
      [ev.citation_number] := by
  have hnl : ∀ l ∈ headerLines ev, '\n' ∉ l := by
    intro l hl
    rw [headerLines] at hl
    rcases List.mem_cons.mp hl with rfl | hl
    · exact nl_not_mem_marker ev.citation_number
    rcases List.mem_cons.mp hl with rfl | hl
    · intro hmem
      rcases List.mem_append.mp hmem with h | h
      · exact absurd h (by decide)
      · exact hdoc h
    rcases List.mem_append.mp hl with hl | hl
    · cases htit : ev.«section».title with
      | none => rw [htit] at hl; simp at hl
      | some t =>
          simp only [htit] at hl
          by_cases hemp : t.isEmpty
          · rw [if_pos hemp] at hl; simp at hl
          · rw [if_neg hemp, List.mem_singleton] at hl
            subst hl
            intro hmem
            rcases List.mem_append.mp hmem with h | h
            · exact absurd h (by decide)
            · exact htitle t htit h
    · by_cases hemp : ev.«section».breadcrumb.isEmpty
      · rw [if_pos hemp] at hl; simp at hl
      · rw [if_neg hemp, List.mem_singleton] at hl
        subst hl
        intro hmem
        rcases List.mem_append.mp hmem with h | h
        · exact absurd h (by decide)
        · exact hbc h
  rw [splitOnNl_terminatedLines _ hnl, headerLines]
  rw [List.filterMap_append]
  have hmark : lineCitation ('[' :: (natToStr ev.citation_number ++ [']'])) =
      some ev.citation_number := lineCitation_marker ev.citation_number []
  have hdocline : lineCitation ("Document: ".data ++ ev.«section».doc_title) = none := by
    have : "Document: ".data ++ ev.«section».doc_title =
        'D' :: ("ocument: ".data ++ ev.«section».doc_title) := rfl
    rw [this]
    exact lineCitation_not_bracket 'D' _ (by decide)
  rw [List.filterMap_cons, hmark, List.filterMap_cons, hdocline]
  have hopt : (((match ev.«section».title with
      | some t => if t.isEmpty then [] else ["Section: ".data ++ t]
      | none => ([] : List Str)) ++
     (if ev.«section».breadcrumb.isEmpty then ([] : List Str)
      else ["Path: ".data ++ joinSep " > ".data ev.«section».breadcrumb]))).filterMap
        lineCitation = [] := by
    rw [List.filterMap_eq_nil]
    intro l hl
    rcases List.mem_append.mp hl with hl | hl
    · cases htit : ev.«section».title with
      | none => rw [htit] at hl; simp at hl
      | some t =>
          simp only [htit] at hl
          by_cases hemp : t.isEmpty
          · rw [if_pos hemp] at hl; simp at hl
          · rw [if_neg hemp, List.mem_singleton] at hl
            subst hl
            have : "Section: ".data ++ t = 'S' :: ("ection: ".data ++ t) := rfl
            rw [this]
            exact lineCitation_not_bracket 'S' _ (by decide)
    · by_cases hemp : ev.«section».breadcrumb.isEmpty
      · rw [if_pos hemp] at hl; simp at hl
      · rw [if_neg hemp, List.mem_singleton] at hl
        subst hl
        have : "Path: ".data ++ joinSep " > ".data ev.«section».breadcrumb =
            'P' :: ("ath: ".data ++ joinSep " > ".data ev.«section».breadcrumb) := rfl
        rw [this]
        exact lineCitation_not_bracket 'P' _ (by decide)
  rw [hopt]
  simp [lineCitation]

theorem images_block_citations (descs : List Str)
    (himg : ∀ d ∈ descs, '\n' ∉ d) :
    (((('\n' :: "[Images in this section]".data) ::
        (descs.map (fun d => "- ".data ++ d)) ++ [[]]).flatMap
          splitOnNl).filterMap lineCitation) = [] := by
  rw [List.filterMap_eq_nil]
  intro l hl
  obtain ⟨p, hp, hlp⟩ := List.mem_flatMap.mp hl
  rcases List.mem_cons.mp hp with rfl | hp
  · rw [splitOnNl_cons_nl,
      splitOnNl_no_nl ("[Images in this section]".data) (by decide)] at hlp
    rcases List.mem_cons.mp hlp with rfl | hlp
    · rfl
    · rw [List.mem_singleton] at hlp
      subst hlp
      decide
  rcases List.mem_append.mp hp with hp | hp
  · obtain ⟨d, hd, rfl⟩ := List.mem_map.mp hp
    rw [splitOnNl_no_nl _ (by
      intro hmem
      rcases List.mem_append.mp hmem with h | h
      · exact absurd h (by decide)
      · exact himg d hd h), List.mem_singleton] at hlp
    subst hlp
    have : "- ".data ++ d = '-' :: (" ".data ++ d) := rfl
    rw [this]
    exact lineCitation_not_bracket '-' _ (by decide)
  · rw [List.mem_singleton] at hp
    subst hp
    rw [show splitOnNl [] = [[]] from rfl, List.mem_singleton] at hlp
    subst hlp
    rfl

theorem content_part_citations (content : Str)
    (hcontent : ∀ l ∈ splitOnNl content, lineCitation l = none) :
    (splitOnNl ("Content:".data ++ '\n' :: (content ++ ['\n']))).filterMap
      lineCitation = [] := by
  rw [splitOnNl_append_nl, splitOnNl_no_nl ("Content:".data) (by decide)]
  have : content ++ ['\n'] = content ++ '\n' :: [] := rfl
  rw [this, splitOnNl_append_nl, List.filterMap_eq_nil]
  intro l hl
  rw [List.singleton_append, List.mem_cons] at hl
  rcases hl with rfl | hl
  · decide
  rcases List.mem_append.mp hl with hl | hl
  · exact hcontent l hl
  · rw [show splitOnNl ([] : Str) = [[]] from rfl, List.mem_singleton] at hl
    subst hl
    rfl

theorem dash_part_citations :
    (splitOnNl (List.replicate 80 '-' ++ ['\n'])).filterMap lineCitation = [] := by
  have : List.replicate 80 '-' ++ ['\n'] = List.replicate 80 '-' ++ '\n' :: [] := rfl
  rw [this, splitOnNl_append_nl,
    splitOnNl_no_nl (List.replicate 80 '-') (by decide), List.filterMap_eq_nil]
  intro l hl
  rw [List.singleton_append, List.mem_cons] at hl
  rcases hl with rfl | hl
  · decide
  · rw [show splitOnNl ([] : Str) = [[]] from rfl, List.mem_singleton] at hl
    subst hl
    rfl

theorem evidenceParts_citations (images : Str → List Str) (ev : Evidence)
    (hcontent : ∀ l ∈ splitOnNl ev.«section».content, lineCitation l = none)
    (hdoc : '\n' ∉ ev.«section».doc_title)
    (htitle : ∀ t, ev.«section».title = some t → '\n' ∉ t)
    (hbc : '\n' ∉ joinSep " > ".data ev.«section».breadcrumb)
    (himg : ∀ d ∈ images ev.«section».section_id, '\n' ∉ d) :
    ((evidenceParts images ev).flatMap splitOnNl).filterMap lineCitation =
      [ev.citation_number] := by
  rw [evidenceParts]
  rw [List.flatMap_append, List.flatMap_append, List.flatMap_append,
    List.filterMap_append, List.filterMap_append, List.filterMap_append]
  have h1 : (([terminatedLines (headerLines ev)].flatMap splitOnNl).filterMap
      lineCitation) = [ev.citation_number] := by
    rw [List.flatMap_cons, List.flatMap_nil, List.append_nil]
    exact header_citations ev hdoc htitle hbc
  have h2 : (((if ev.«section».has_images ∧
        ¬ (images ev.«section».section_id).isEmpty then
        ('\n' :: "[Images in this section]".data) ::
          ((images ev.«section».section_id).map (fun d => "- ".data ++ d)) ++ [[]]
       else []).flatMap splitOnNl).filterMap lineCitation) = [] := by
    split
    · exact images_block_citations (images ev.«section».section_id) himg
    · rfl
  have h3 : ((["Content:".data ++ '\n' ::
      (ev.«section».content ++ ['\n'])].flatMap splitOnNl).filterMap
        lineCitation) = [] := by
    rw [List.flatMap_cons, List.flatMap_nil, List.append_nil]
    exact content_part_citations ev.«section».content hcontent
  have h4 : (([List.replicate 80 '-' ++ ['\n']].flatMap splitOnNl).filterMap
      lineCitation) = [] := by
    rw [List.flatMap_cons, List.flatMap_nil, List.append_nil]
    exact dash_part_citations
  rw [h1, h2, h3, h4]
  simp

theorem flatMap_singleton_eq_map {α β : Type _} (l : List α) (f : α → β) :
    l.flatMap (fun x => [f x]) = l.map f := by
  induction l with
  | nil => rfl
  | cons x xs ih => simp [List.flatMap_cons, ih]

/-- C8: for an evidence list with citation numbers 1..k (k at least 1) whose
section contents contain no line beginning with a bracketed integer (and
whose metadata fields and image descriptions are single-line, as a Python
line-anchored regex scan presumes), the maximum-citation hint that
AnswerGenerator._build_user_prompt derives by scanning the context produced
by ContextBuilder.build equals k, the count of Evidence items passed in. -/
theorem C8_max_source_equals_count (images : Str → List Str)
    (evidence : List Evidence) (k : ℕ) (hk : 1 ≤ k)
    (hcit : evidence.map (·.citation_number) = List.range' 1 k)
    (hclean : ∀ ev ∈ evidence,
      (∀ l ∈ splitOnNl ev.«section».content, lineCitation l = none) ∧
      '\n' ∉ ev.«section».doc_title ∧
      (∀ t, ev.«section».title = some t → '\n' ∉ t) ∧
      '\n' ∉ joinSep " > ".data ev.«section».breadcrumb ∧
      (∀ d ∈ images ev.«section».section_id, '\n' ∉ d)) :
    AnswerGenerator.max_source (ContextBuilder.build images evidence) = k ∧
    evidence.length = k := by
  have hlen : evidence.length = k := by
    have := congrArg List.length hcit
    simpa using this
  have hne : evidence ≠ [] := by
    intro h
    rw [h] at hlen
    simp at hlen
    omega
  have hpartsne : evidence.flatMap (evidenceParts images) ≠ [] := by
    cases evidence with
    | nil => cases hne rfl
    | cons e es =>
        rw [List.flatMap_cons, evidenceParts]
        simp
  have hsplit : (splitOnNl (ContextBuilder.build images evidence)).filterMap
      lineCitation = List.range' 1 k := by
    rw [ContextBuilder.build, splitOnNl_joinNl _ hpartsne, List.flatMap_assoc,
      filterMap_flatMap]
    have hcongr : evidence.flatMap
        (fun ev => ((evidenceParts images ev).flatMap splitOnNl).filterMap
          lineCitation) =
        evidence.flatMap (fun ev => [ev.citation_number]) := by
      apply List.flatMap_congr
      intro ev hev
      obtain ⟨h1, h2, h3, h4, h5⟩ := hclean ev hev
      exact evidenceParts_citations images ev h1 h2 h3 h4 h5
    rw [hcongr, flatMap_singleton_eq_map, hcit]
  refine ⟨?_, hlen⟩
  rw [AnswerGenerator.max_source, hsplit, foldl_max_range']

/-- Witness for C8: one evidence item with citation number 1 over sectionA
and no images; the derived hint is 1. -/
theorem C8_max_source_equals_count_witness :
    ((1 : ℕ) ≤ 1 ∧
     ([⟨sectionA, mkRat 4 5, 1⟩] : List Evidence).map (·.citation_number) =
       List.range' 1 1 ∧
     (∀ ev ∈ ([⟨sectionA, mkRat 4 5, 1⟩] : List Evidence),
      (∀ l ∈ splitOnNl ev.«section».content, lineCitation l = none) ∧
      '\n' ∉ ev.«section».doc_title ∧
      (∀ t, ev.«section».title = some t → '\n' ∉ t) ∧
      '\n' ∉ joinSep " > ".data ev.«section».breadcrumb ∧
      (∀ d ∈ (fun _ : Str => ([] : List Str)) ev.«section».section_id, '\n' ∉ d))) ∧
    (AnswerGenerator.max_source
      (ContextBuilder.build (fun _ => []) [⟨sectionA, mkRat 4 5, 1⟩]) = 1 ∧
     ([⟨sectionA, mkRat 4 5, 1⟩] : List Evidence).length = 1) :=
  ⟨⟨by decide, by decide, by decide⟩,
    C8_max_source_equals_count (fun _ => []) [⟨sectionA, mkRat 4 5, 1⟩] 1
      (by decide) (by decide) (by decide)⟩

/-! ### Citation reconciliation (services/query_service.py lines 107-140) -/

/-- Python str.replace(a, b) for a non-empty pattern a: scan left to right,
replace each leftmost non-overlapping occurrence, never rescanning the
inserted replacement.  (The a = [] guard exists only for termination; the
patterns used by the pipeline are never empty.) -/
def replaceAll (a b : Str) : Str → Str
  | [] => []
  | c :: rest =>
      if h : a ≠ [] ∧ (c :: rest).take a.length = a then
        b ++ replaceAll a b ((c :: rest).drop a.length)
      else c :: replaceAll a b rest
  termination_by s => s.length
  decreasing_by
  · simp only [List.length_drop, List.length_cons]
    have : a.length ≠ 0 := fun h0 => h.1 (List.eq_nil_of_length_eq_zero h0)
    omega
  · simp only [List.length_cons]
    omega

/-- The in-text citation marker string of Python f-string [old_num]
(query_service.py line 124). -/
def citationMarker (n : ℕ) : Str := '[' :: (natToStr n ++ [']'])

/-- The temporary placeholder string of Python f-string [TEMP_new_num]
(query_service.py line 124). -/
def tempMarker (n : ℕ) : Str := '[' :: ("TEMP_".data ++ (natToStr n ++ [']']))

/-- sorted_evidence (query_service.py lines 108-112): Python's stable sort
of the evidence by relevance_score descending. -/
def sortedEvidence (evidence : List Evidence) : List Evidence :=
  sortDesc (fun ev : Evidence => ev.relevance_score) evidence

/-- citation_mapping (query_service.py lines 115-118): a dict from old
citation number to new 1-based position in sorted order, modelled as the
association list in Python insertion order. -/
def citationMapping (sorted_evidence : List Evidence) : List (ℕ × ℕ) :=
  sorted_evidence.enum.map (fun p => (p.2.citation_number, p.1 + 1))

/-- The first replacement loop (query_service.py lines 122-124): iterate
the mapping items sorted descending (Python sorts the pairs; the first
components are the sort key since they are distinct in every reachable
state), replacing each [old] with [TEMP_new]. -/
def pass1 (mapping : List (ℕ × ℕ)) (text : Str) : Str :=
  (sortDesc (fun p : ℕ × ℕ => p.1) mapping).foldl
    (fun t p => replaceAll (citationMarker p.1) (tempMarker p.2) t) text

/-- The second replacement loop (query_service.py lines 127-128): iterate
the mapping values in insertion order, replacing each [TEMP_new] with
[new]. -/
def pass2 (mapping : List (ℕ × ℕ)) (text : Str) : Str :=
  (mapping.map (·.2)).foldl
    (fun t n => replaceAll (tempMarker n) (citationMarker n) t) text

/-- The two-pass citation renumbering applied to the answer text
(query_service.py lines 120-128). -/
def reconcileAnswer (evidence : List Evidence) (text : Str) : Str :=
  pass2 (citationMapping (sortedEvidence evidence))
    (pass1 (citationMapping (sortedEvidence evidence)) text)

/-- API model EvidenceItem (models/api.py). -/
structure EvidenceItem where
  citation_number : ℕ
  doc_title : Str
  section_title : Option Str
  url : Option Str
  relevance_score : ℚ
  excerpt : Str
  deriving DecidableEq

/-- evidence_items of the response (query_service.py lines 130-140):
sequential renumbering of the sorted evidence. -/
def responseEvidenceItems (sorted_evidence : List Evidence) : List EvidenceItem :=
  sorted_evidence.enum.map (fun p =>
    { citation_number := p.1 + 1
      doc_title := p.2.«section».doc_title
      section_title := p.2.«section».title
      excerpt := p.2.«section».content
      url := p.2.«section».url
      relevance_score := p.2.relevance_score })

/-- The final citation number assigned to original citation number i by the
mapping dict (some position + 1 when i is a key, the lookup Python performs
during pass 1). -/
def finalNumber (sorted_evidence : List Evidence) (i : ℕ) : ℕ :=
  (((citationMapping sorted_evidence).find? (fun p => p.1 == i)).map (·.2)).getD 0

/-! ### Marker tokens: the shape of answer texts whose bracketed citation
markers are all well-formed -/

/-- A token of an answer text: a literal run containing no opening bracket,
a citation marker [i], or a temporary placeholder [TEMP_i]. -/
inductive MTok where
  | lit : Str → MTok
  | mark : ℕ → MTok
  | temp : ℕ → MTok
  deriving DecidableEq

/-- Concatenated text of a token list. -/
def renderTok : MTok → Str
  | .lit s => s
  | .mark n => citationMarker n
  | .temp n => tempMarker n

/-- Render a token list to text. -/
def render (toks : List MTok) : Str := toks.flatMap renderTok

/-- Literal tokens contain no opening bracket (every bracketed substring of
the text is one of the markers). -/
def litsClean (toks : List MTok) : Prop :=
  ∀ s, MTok.lit s ∈ toks → '[' ∉ s

/-- The token-level effect of one pass-1 replacement step. -/
def applyPass1 (pairs : List (ℕ × ℕ)) (t : MTok) : MTok :=
  match t with
  | .mark i =>
      match pairs.find? (fun p => p.1 == i) with
      | some p => .temp p.2
      | none => .mark i
  | t => t

/-- The token-level effect of one pass-2 replacement step. -/
def applyPass2 (news : List ℕ) (t : MTok) : MTok :=
  match t with
  | .temp n => if news.contains n then .mark n else .temp n
  | t => t

/-! ### Matching lemmas for markers and str.replace -/

theorem take_eq_iff_exists (p s : Str) :
    s.take p.length = p ↔ ∃ t, s = p ++ t := by
  constructor
  · intro h
    refine ⟨s.drop p.length, ?_⟩
    conv_lhs => rw [← List.take_append_drop p.length s]
    rw [h]
  · rintro ⟨t, rfl⟩
    exact List.take_left p t

theorem digit_bracket_eq (d1 d2 x y : Str)
    (h1 : ∀ c ∈ d1, c.isDigit) (h2 : ∀ c ∈ d2, c.isDigit)
    (heq : d1 ++ ']' :: x = d2 ++ ']' :: y) : d1 = d2 ∧ x = y := by
  induction d1 generalizing d2 with
  | nil =>
      cases d2 with
      | nil => simpa using heq
      | cons c2 cs2 =>
          simp only [List.nil_append, List.cons_append, List.cons.injEq] at heq
          have := h2 c2 (List.mem_cons_self c2 cs2)
          rw [← heq.1] at this
          exact absurd this (by decide)
  | cons c1 cs1 ih =>
      cases d2 with
      | nil =>
          simp only [List.cons_append, List.nil_append, List.cons.injEq] at heq
          have := h1 c1 (List.mem_cons_self c1 cs1)
          rw [heq.1] at this
          exact absurd this (by decide)
      | cons c2 cs2 =>
          simp only [List.cons_append, List.cons.injEq] at heq
          obtain ⟨rfl, heq2⟩ := heq
          obtain ⟨hd, hx⟩ := ih cs2 (fun c hc => h1 c (List.mem_cons_of_mem c1 hc))
            (fun c hc => h2 c (List.mem_cons_of_mem c1 hc)) heq2
          exact ⟨by rw [hd], hx⟩

theorem natToStr_inj (a b : ℕ) (h : natToStr a = natToStr b) : a = b := by
  rw [← parseNat_natToStr a, ← parseNat_natToStr b, h]

theorem natToStr_head_digit (a : ℕ) (c : Char) (cs : Str)
    (h : natToStr a = c :: cs) : c.isDigit :=
  natToStr_all_digits a c (by rw [h]; exact List.mem_cons_self c cs)

theorem marker_prefix_marker (a b : ℕ) (s t : Str)
    (h : citationMarker b ++ s = citationMarker a ++ t) : b = a ∧ s = t := by
  simp only [citationMarker, List.cons_append, List.cons.injEq, List.append_assoc,
    List.singleton_append, true_and] at h
  obtain ⟨hd, hst⟩ := digit_bracket_eq (natToStr b) (natToStr a) s t
    (natToStr_all_digits b) (natToStr_all_digits a) h
  exact ⟨natToStr_inj b a hd, hst⟩

theorem temp_prefix_temp (a b : ℕ) (s t : Str)
    (h : tempMarker b ++ s = tempMarker a ++ t) : b = a ∧ s = t := by
  have hb : tempMarker b ++ s =
      '[' :: 'T' :: 'E' :: 'M' :: 'P' :: '_' :: (natToStr b ++ ']' :: s) := by
    simp [tempMarker]
  have ha : tempMarker a ++ t =
      '[' :: 'T' :: 'E' :: 'M' :: 'P' :: '_' :: (natToStr a ++ ']' :: t) := by
    simp [tempMarker]
  rw [hb, ha] at h
  simp only [List.cons.injEq, true_and] at h
  obtain ⟨hd, hst⟩ := digit_bracket_eq (natToStr b) (natToStr a) s t
    (natToStr_all_digits b) (natToStr_all_digits a) h
  exact ⟨natToStr_inj b a hd, hst⟩

theorem marker_not_prefix_temp (a b : ℕ) (s t : Str) :
    tempMarker b ++ s ≠ citationMarker a ++ t := by
  intro h
  have hb : tempMarker b ++ s =
      '[' :: 'T' :: ('E' :: 'M' :: 'P' :: '_' :: (natToStr b ++ ']' :: s)) := by
    simp [tempMarker]
  cases hna : natToStr a with
  | nil => exact natToStr_ne_nil a hna
  | cons c cs =>
      have ha : citationMarker a ++ t = '[' :: c :: (cs ++ ']' :: t) := by
        simp [citationMarker, hna]
      rw [hb, ha] at h
      simp only [List.cons.injEq, true_and] at h
      have := natToStr_head_digit a c cs hna
      rw [← h.1] at this
      exact absurd this (by decide)

theorem temp_not_prefix_marker (a b : ℕ) (s t : Str) :
    citationMarker b ++ s ≠ tempMarker a ++ t := by
  intro h
  cases hnb : natToStr b with
  | nil => exact natToStr_ne_nil b hnb
  | cons c cs =>
      have hb : citationMarker b ++ s = '[' :: c :: (cs ++ ']' :: s) := by
        simp [citationMarker, hnb]
      have ha : tempMarker a ++ t =
          '[' :: 'T' :: ('E' :: 'M' :: 'P' :: '_' :: (natToStr a ++ ']' :: t)) := by
        simp [tempMarker]
      rw [hb, ha] at h
      simp only [List.cons.injEq, true_and] at h
      have := natToStr_head_digit b c cs hnb
      rw [h.1] at this
      exact absurd this (by decide)

theorem nl_bracket_not_mem_marker_tail (b : ℕ) :
    '[' ∉ natToStr b ++ [']'] := by
  intro h
  rcases List.mem_append.mp h with h | h
  · have := natToStr_all_digits b _ h
    exact absurd this (by decide)
  · rw [List.mem_singleton] at h
    exact absurd h.symm (by decide)

theorem bracket_not_mem_temp_tail (b : ℕ) :
    '[' ∉ "TEMP_".data ++ (natToStr b ++ [']']) := by
  intro h
  rcases List.mem_append.mp h with h | h
  · exact absurd h (by decide)
  · exact nl_bracket_not_mem_marker_tail b h

theorem replaceAll_nil_text (a b : Str) : replaceAll a b [] = [] := by
  rw [replaceAll]

theorem replaceAll_pos (a b : Str) (c : Char) (rest : Str) (ha : a ≠ [])
    (hpre : (c :: rest).take a.length = a) :
    replaceAll a b (c :: rest) = b ++ replaceAll a b ((c :: rest).drop a.length) := by
  rw [replaceAll, dif_pos ⟨ha, hpre⟩]

theorem replaceAll_neg (a b : Str) (c : Char) (rest : Str)
    (hpre : ¬ (a ≠ [] ∧ (c :: rest).take a.length = a)) :
    replaceAll a b (c :: rest) = c :: replaceAll a b rest := by
  rw [replaceAll, dif_neg hpre]

theorem replaceAll_self (p r X : Str) (c : Char) (u : Str) (hp : p = c :: u) :
    replaceAll p r (p ++ X) = r ++ replaceAll p r X := by
  subst hp
  rw [List.cons_append,
    replaceAll_pos (c :: u) r c (u ++ X) (by simp)
      (by rw [← List.cons_append]; exact List.take_left (c :: u) X)]
  rw [← List.cons_append, List.drop_left]

theorem replaceAll_lit (p r z rest : Str) (hhead : ∃ u, p = '[' :: u)
    (hz : '[' ∉ z) :
    replaceAll p r (z ++ rest) = z ++ replaceAll p r rest := by
  induction z with
  | nil => simp
  | cons c z ih =>
      have hc : c ≠ '[' := fun h => hz (h ▸ List.mem_cons_self c z)
      rw [List.cons_append, replaceAll_neg]
      · rw [ih (fun h => hz (List.mem_cons_of_mem c h)), List.cons_append]
      · rintro ⟨ha, hpre⟩
        obtain ⟨u, rfl⟩ := hhead
        rw [List.length_cons, List.take_succ_cons] at hpre
        exact hc (by injection hpre)

theorem replaceAll_through_token (p r : Str) (hp : ∃ u, p = '[' :: u)
    (c : Char) (z X : Str) (hz : '[' ∉ z)
    (hnm : ∀ t, (c :: z) ++ X ≠ p ++ t) :
    replaceAll p r ((c :: z) ++ X) = (c :: z) ++ replaceAll p r X := by
  rw [List.cons_append, replaceAll_neg]
  · rw [replaceAll_lit p r z X hp hz]
    rfl
  · rintro ⟨ha, hpre⟩
    obtain ⟨t, ht⟩ := (take_eq_iff_exists p (c :: (z ++ X))).mp hpre
    exact hnm t (by rw [List.cons_append]; exact ht)

/-! ### Token-level behaviour of the two replacement passes -/

theorem render_cons (t : MTok) (ts : List MTok) :
    render (t :: ts) = renderTok t ++ render ts := by
  rw [render, List.flatMap_cons, render]

theorem replaceAll_mark_step (a m : ℕ) (toks : List MTok)
    (hlits : litsClean toks) :
    replaceAll (citationMarker a) (tempMarker m) (render toks) =
      render (toks.map (fun t => if t = MTok.mark a then MTok.temp m else t)) := by
  induction toks with
  | nil => exact replaceAll_nil_text _ _
  | cons t ts ih =>
      have hlits' : litsClean ts := fun s hs => hlits s (List.mem_cons_of_mem t hs)
      have iheq := ih hlits'
      rw [render_cons, List.map_cons, render_cons]
      cases t with
      | lit s =>
          have h1 : '[' ∉ s := hlits s (List.mem_cons_self _ _)
          rw [show renderTok (MTok.lit s) = s from rfl,
            replaceAll_lit (citationMarker a) (tempMarker m) s (render ts)
              ⟨natToStr a ++ [']'], rfl⟩ h1, iheq]
          rw [show (if MTok.lit s = MTok.mark a then MTok.temp m else MTok.lit s) =
            MTok.lit s by simp]
          rfl
      | mark b =>
          by_cases hab : b = a
          · subst hab
            rw [show renderTok (MTok.mark b) = citationMarker b from rfl,
              replaceAll_self (citationMarker b) (tempMarker m) (render ts) '['
                (natToStr b ++ [']']) rfl, iheq]
            rw [if_pos rfl]
            rfl
          · rw [show renderTok (MTok.mark b) = citationMarker b from rfl,
              show citationMarker b = '[' :: (natToStr b ++ [']']) from rfl,
              replaceAll_through_token (citationMarker a) (tempMarker m)
                ⟨natToStr a ++ [']'], rfl⟩ '[' (natToStr b ++ [']']) (render ts)
                (nl_bracket_not_mem_marker_tail b)
                (fun t ht => hab (marker_prefix_marker a b _ t ht).1), iheq]
            rw [if_neg (by simp [hab])]
            rfl
      | temp b =>
          rw [show renderTok (MTok.temp b) = tempMarker b from rfl,
            show tempMarker b = '[' :: ("TEMP_".data ++ (natToStr b ++ [']'])) from rfl,
            replaceAll_through_token (citationMarker a) (tempMarker m)
              ⟨natToStr a ++ [']'], rfl⟩ '[' ("TEMP_".data ++ (natToStr b ++ [']']))
              (render ts) (bracket_not_mem_temp_tail b)
              (fun t ht => marker_not_prefix_temp a b _ t ht), iheq]
          rw [show (if MTok.temp b = MTok.mark a then MTok.temp m else MTok.temp b) =
            MTok.temp b by simp]
          rfl

theorem replaceAll_temp_step (a : ℕ) (toks : List MTok)
    (hlits : litsClean toks) :
    replaceAll (tempMarker a) (citationMarker a) (render toks) =
      render (toks.map (fun t => if t = MTok.temp a then MTok.mark a else t)) := by
  induction toks with
  | nil => exact replaceAll_nil_text _ _
  | cons t ts ih =>
      have hlits' : litsClean ts := fun s hs => hlits s (List.mem_cons_of_mem t hs)
      have iheq := ih hlits'
      rw [render_cons, List.map_cons, render_cons]
      cases t with
      | lit s =>
          have h1 : '[' ∉ s := hlits s (List.mem_cons_self _ _)
          rw [show renderTok (MTok.lit s) = s from rfl,
            replaceAll_lit (tempMarker a) (citationMarker a) s (render ts)
              ⟨"TEMP_".data ++ (natToStr a ++ [']']), rfl⟩ h1, iheq]
          rw [show (if MTok.lit s = MTok.temp a then MTok.mark a else MTok.lit s) =
            MTok.lit s by simp]
          rfl
      | mark b =>
          rw [show renderTok (MTok.mark b) = citationMarker b from rfl,
            show citationMarker b = '[' :: (natToStr b ++ [']']) from rfl,
            replaceAll_through_token (tempMarker a) (citationMarker a)
              ⟨"TEMP_".data ++ (natToStr a ++ [']']), rfl⟩ '['
              (natToStr b ++ [']']) (render ts)
              (nl_bracket_not_mem_marker_tail b)
              (fun t ht => temp_not_prefix_marker a b _ t ht), iheq]
          rw [show (if MTok.mark b = MTok.temp a then MTok.mark a else MTok.mark b) =
            MTok.mark b by simp]
          rfl
      | temp b =>
          by_cases hab : b = a
          · subst hab
            rw [show renderTok (MTok.temp b) = tempMarker b from rfl,
              replaceAll_self (tempMarker b) (citationMarker b) (render ts) '['
                ("TEMP_".data ++ (natToStr b ++ [']'])) rfl, iheq]
            rw [if_pos rfl]
            rfl
          · rw [show renderTok (MTok.temp b) = tempMarker b from rfl,
              show tempMarker b = '[' :: ("TEMP_".data ++ (natToStr b ++ [']'])) from rfl,
              replaceAll_through_token (tempMarker a) (citationMarker a)
                ⟨"TEMP_".data ++ (natToStr a ++ [']']), rfl⟩ '['
                ("TEMP_".data ++ (natToStr b ++ [']'])) (render ts)
                (bracket_not_mem_temp_tail b)
                (fun t ht => hab (temp_prefix_temp a b _ t ht).1), iheq]
            rw [if_neg (by simp [hab])]
            rfl

theorem litsClean_map (toks : List MTok) (f : MTok → MTok)
    (hlit : ∀ s, f (MTok.lit s) = MTok.lit s)
    (hmark : ∀ i s, f (MTok.mark i) ≠ MTok.lit s)
    (htemp : ∀ i s, f (MTok.temp i) ≠ MTok.lit s)
    (h : litsClean toks) : litsClean (toks.map f) := by
  intro s hs
  obtain ⟨t, ht, hft⟩ := List.mem_map.mp hs
  cases t with
  | lit s2 =>
      rw [hlit] at hft
      injection hft with h2
      exact h2 ▸ h s2 ht
  | mark i => exact absurd hft (hmark i s)
  | temp i => exact absurd hft (htemp i s)

theorem pass1_fold_render (pairs : List (ℕ × ℕ)) (toks : List MTok)
    (hlits : litsClean toks) :
    pairs.foldl (fun t p => replaceAll (citationMarker p.1) (tempMarker p.2) t)
      (render toks) = render (toks.map (applyPass1 pairs)) := by
  induction pairs generalizing toks with
  | nil =>
      rw [List.foldl_nil]
      congr 1
      rw [show toks.map (applyPass1 []) = toks.map id by
        apply List.map_congr_left
        intro t _
        cases t <;> rfl]
      rw [List.map_id]
  | cons q qs ih =>
      rw [List.foldl_cons, replaceAll_mark_step q.1 q.2 toks hlits,
        ih _ (litsClean_map toks _ (fun s => by simp) (fun i s => by
          by_cases h : MTok.mark i = MTok.mark q.1 <;> simp [h]) (fun i s => by
          simp) hlits)]
      rw [List.map_map]
      congr 1
      apply List.map_congr_left
      intro t _
      cases t with
      | lit s => rfl
      | temp i => rfl
      | mark i =>
          simp only [Function.comp_apply]
          have hstep : applyPass1 (q :: qs) (MTok.mark i) =
              match (q :: qs).find? (fun p => p.1 == i) with
              | some p => MTok.temp p.2
              | none => MTok.mark i := rfl
          by_cases hiq : i = q.1
          · rw [if_pos (by rw [hiq]), hstep,
              List.find?_cons_of_pos _ (by simp [hiq])]
            rfl
          · rw [if_neg (by simp [hiq]), hstep,
              List.find?_cons_of_neg _ (by
                simp only [beq_iff_eq]
                exact fun h => hiq h.symm)]
            rfl

theorem pass2_fold_render (news : List ℕ) (toks : List MTok)
    (hlits : litsClean toks) :
    news.foldl (fun t n => replaceAll (tempMarker n) (citationMarker n) t)
      (render toks) = render (toks.map (applyPass2 news)) := by
  induction news generalizing toks with
  | nil =>
      rw [List.foldl_nil]
      congr 1
      rw [show toks.map (applyPass2 []) = toks.map id by
        apply List.map_congr_left
        intro t _
        cases t <;> rfl]
      rw [List.map_id]
  | cons n ns ih =>
      rw [List.foldl_cons, replaceAll_temp_step n toks hlits,
        ih _ (litsClean_map toks _ (fun s => by simp) (fun i s => by simp)
          (fun i s => by by_cases h : MTok.temp i = MTok.temp n <;> simp [h]) hlits)]
      rw [List.map_map]
      congr 1
      apply List.map_congr_left
      intro t _
      cases t with
      | lit s => rfl
      | mark i => rfl
      | temp i =>
          simp only [Function.comp_apply]
          have hstep : applyPass2 (n :: ns) (MTok.temp i) =
              (if (n :: ns).contains i then MTok.mark i else MTok.temp i) := rfl
          by_cases hin : i = n
          · rw [if_pos (by rw [hin]), hstep,
              show applyPass2 ns (MTok.mark n) = MTok.mark n from rfl,
              if_pos (by simp [hin])]
            rw [hin]
          · rw [if_neg (by simp [hin]), hstep,
              show applyPass2 ns (MTok.temp i) =
                (if ns.contains i then MTok.mark i else MTok.temp i) from rfl]
            have hcon : (n :: ns).contains i = ns.contains i := by
              simp only [List.contains_cons]
              rw [show (i == n) = false by simpa using hin]
              simp
            rw [hcon]

/-! ### The mapping dict and the final numbers it assigns -/

/-- Well-formedness of one answer-text token against evidence count k: a
literal holds no opening bracket, a marker number lies in 1..k, and no
pre-existing TEMP placeholder exists (the shape required by C4). -/
def tokClean (k : ℕ) : MTok → Bool
  | .lit s => ! s.contains '['
  | .mark i => decide (1 ≤ i) && decide (i ≤ k)
  | .temp _ => false

theorem litsClean_of_tokClean (toks : List MTok) (k : ℕ)
    (h : ∀ t ∈ toks, tokClean k t) : litsClean toks := by
  intro s hs
  have := h (MTok.lit s) hs
  simp only [tokClean, Bool.not_eq_eq_eq_not, Bool.not_true] at this
  intro hmem
  have htrue : s.contains '[' = true := List.elem_eq_true_of_mem hmem
  rw [htrue] at this
  exact absurd this (by simp)

theorem find?_eq_some_of_unique {α : Type _} (p : α → Bool) (l : List α)
    (a : α) (ha : a ∈ l) (hpa : p a)
    (huniq : ∀ b ∈ l, p b → b = a) : l.find? p = some a := by
  induction l with
  | nil => cases ha
  | cons c cs ih =>
      by_cases hc : p c
      · rw [List.find?_cons_of_pos _ hc, huniq c (List.mem_cons_self c cs) hc]
      · rw [List.find?_cons_of_neg _ hc]
        rcases List.mem_cons.mp ha with rfl | ha2
        · exact absurd hpa hc
        · exact ih ha2 (fun b hb => huniq b (List.mem_cons_of_mem c hb))

theorem enum_positions {α : Type _} (l : List α) :
    l.enum.map (fun p => p.1 + 1) = List.range' 1 l.length := by
  have h1 : l.enum.map (fun p => p.1 + 1) =
      (l.enum.map Prod.fst).map (fun i => i + 1) := by
    rw [List.map_map]
    rfl
  rw [h1, List.enum_map_fst, List.range'_eq_map_range]
  apply List.map_congr_left
  intro i _
  omega

theorem citationMapping_map_fst (l : List Evidence) :
    (citationMapping l).map (·.1) = l.map (·.citation_number) := by
  rw [citationMapping, List.map_map,
    show ((fun p : ℕ × ℕ => p.1) ∘ fun p : ℕ × Evidence =>
      (p.2.citation_number, p.1 + 1)) =
      ((fun ev : Evidence => ev.citation_number) ∘ Prod.snd) from rfl,
    ← List.map_map, List.enum_map_snd]

theorem citationMapping_map_snd (l : List Evidence) :
    (citationMapping l).map (·.2) = List.range' 1 l.length := by
  rw [citationMapping, List.map_map]
  exact enum_positions l

theorem mem_citationMapping (l : List Evidence) (q : ℕ × ℕ) :
    q ∈ citationMapping l ↔
      ∃ j ev, l[j]? = some ev ∧ q = (ev.citation_number, j + 1) := by
  rw [citationMapping, List.mem_map]
  constructor
  · rintro ⟨p, hp, rfl⟩
    exact ⟨p.1, p.2, List.mem_enum_iff_getElem?.mp hp, rfl⟩
  · rintro ⟨j, ev, hj, rfl⟩
    exact ⟨(j, ev), List.mem_enum_iff_getElem?.mpr hj, rfl⟩

theorem finalNumber_spec (sorted_evidence : List Evidence)
    (hnd : (sorted_evidence.map (·.citation_number)).Nodup) (i : ℕ)
    (hi : i ∈ sorted_evidence.map (·.citation_number)) :
    ∃ j, ∃ hj : j < sorted_evidence.length,
      (sorted_evidence.get ⟨j, hj⟩).citation_number = i ∧
      finalNumber sorted_evidence i = j + 1 ∧
      (citationMapping sorted_evidence).find? (fun p => p.1 == i) =
        some (i, j + 1) ∧
      (∀ b ∈ citationMapping sorted_evidence, b.1 = i → b = (i, j + 1)) := by
  obtain ⟨ev, hev, hevc⟩ := List.mem_map.mp hi
  obtain ⟨j, hj⟩ := List.mem_iff_getElem?.mp hev
  obtain ⟨hjlen, hjget⟩ := List.getElem?_eq_some_iff.mp hj
  have hL1 : (sorted_evidence.map (·.citation_number))[j]? = some i := by
    rw [List.getElem?_map, hj, Option.map_some', hevc]
  have hinj : ∀ (j2 : ℕ) (hj2 : j2 < sorted_evidence.length),
      (sorted_evidence.get ⟨j2, hj2⟩).citation_number = i → j2 = j := by
    intro j2 hj2 hc2
    have hL2 : (sorted_evidence.map (·.citation_number))[j2]? = some i := by
      rw [List.getElem?_map, List.getElem?_eq_getElem hj2, Option.map_some']
      rw [← List.get_eq_getElem sorted_evidence ⟨j2, hj2⟩, hc2]
    exact List.getElem?_inj (by simpa using hj2) hnd (hL2.trans hL1.symm)
  have hfind : (citationMapping sorted_evidence).find? (fun p => p.1 == i) =
      some (i, j + 1) := by
    apply find?_eq_some_of_unique
    · exact (mem_citationMapping sorted_evidence (i, j + 1)).mpr
        ⟨j, ev, hj, by rw [hevc]⟩
    · simp
    · intro b hb hbi
      obtain ⟨j2, ev2, hj2, rfl⟩ := (mem_citationMapping sorted_evidence b).mp hb
      simp only [beq_iff_eq] at hbi
      obtain ⟨hj2len, hj2get⟩ := List.getElem?_eq_some_iff.mp hj2
      have hj2j : j2 = j := hinj j2 hj2len (by
        rw [List.get_eq_getElem, hj2get]
        exact hbi)
      rw [hbi, hj2j]
  have huniq : ∀ b ∈ citationMapping sorted_evidence, b.1 = i → b = (i, j + 1) := by
    intro b hb hbi
    obtain ⟨j2, ev2, hj2, rfl⟩ := (mem_citationMapping sorted_evidence b).mp hb
    obtain ⟨hj2len, hj2get⟩ := List.getElem?_eq_some_iff.mp hj2
    have hbi2 : ev2.citation_number = i := hbi
    have hj2j : j2 = j := hinj j2 hj2len (by
      rw [List.get_eq_getElem, hj2get]
      exact hbi2)
    rw [hbi2, hj2j]
  refine ⟨j, hjlen, ?_, ?_, hfind, huniq⟩
  · rw [List.get_eq_getElem, hjget]
    exact hevc
  · rw [finalNumber, hfind]
    rfl

/-! ### Claim theorem C4 -/

/-- C4: given FilteredEvidence with citation numbers 1..k and an answer text
whose bracketed citation markers are all of the form [i] with 1 <= i <= k
and no pre-existing [TEMP_j] substring (the text is the rendering of
well-formed tokens), the citation reconciliation of QueryService.query
(lines 107-140) is bijective and total: the evidence array returned to the
caller is the relevance-descending permutation of the original evidence,
each item's citation number equals its 1-based position, every in-text
marker [i] is rewritten to [p] where p is the final 1-based position of the
evidence item that originally carried citation number i, and no marker is
left unmapped or duplicated (the assignment is total on 1..k and
injective). -/
theorem C4_citation_reconciliation (evidence : List Evidence) (k : ℕ)
    (hcit : evidence.map (·.citation_number) = List.range' 1 k)
    (toks : List MTok) (htoks : ∀ t ∈ toks, tokClean k t) :
    List.Perm (sortedEvidence evidence) evidence ∧
    (responseEvidenceItems (sortedEvidence evidence)).map (·.citation_number) =
      List.range' 1 evidence.length ∧
    ((responseEvidenceItems (sortedEvidence evidence)).map
      (·.relevance_score)).Pairwise (fun a b => b ≤ a) ∧
    reconcileAnswer evidence (render toks) =
      render (toks.map (fun t =>
        match t with
        | MTok.mark i => MTok.mark (finalNumber (sortedEvidence evidence) i)
        | t => t)) ∧
    (∀ i, 1 ≤ i → i ≤ k →
      ∃ j, ∃ hj : j < (sortedEvidence evidence).length,
        finalNumber (sortedEvidence evidence) i = j + 1 ∧
        ((sortedEvidence evidence).get ⟨j, hj⟩).citation_number = i) ∧
    (∀ i1 i2, 1 ≤ i1 → i1 ≤ k → 1 ≤ i2 → i2 ≤ k →
      finalNumber (sortedEvidence evidence) i1 =
        finalNumber (sortedEvidence evidence) i2 → i1 = i2) := by
  have hperm : List.Perm (sortedEvidence evidence) evidence :=
    sortDesc_perm _ evidence
  have hpermmap : List.Perm ((sortedEvidence evidence).map (·.citation_number))
      (List.range' 1 k) := by
    rw [← hcit]
    exact hperm.map _
  have hnd : ((sortedEvidence evidence).map (·.citation_number)).Nodup :=
    hpermmap.nodup_iff.mpr (List.nodup_range' 1 k)
  have hin : ∀ i, 1 ≤ i → i ≤ k →
      i ∈ (sortedEvidence evidence).map (·.citation_number) := by
    intro i h1 h2
    rw [hpermmap.mem_iff, List.mem_range'_1]
    omega
  have hlits : litsClean toks := litsClean_of_tokClean toks k htoks
  have hitems : (responseEvidenceItems (sortedEvidence evidence)).map
      (·.citation_number) = List.range' 1 evidence.length := by
    rw [responseEvidenceItems, List.map_map,
      show ((fun it : EvidenceItem => it.citation_number) ∘
        fun p : ℕ × Evidence =>
          ({ citation_number := p.1 + 1
             doc_title := p.2.«section».doc_title
             section_title := p.2.«section».title
             excerpt := p.2.«section».content
             url := p.2.«section».url
             relevance_score := p.2.relevance_score } : EvidenceItem)) =
        (fun p : ℕ × Evidence => p.1 + 1) from rfl,
      enum_positions, hperm.length_eq]
  have hrel : (responseEvidenceItems (sortedEvidence evidence)).map
      (·.relevance_score) = (sortedEvidence evidence).map (·.relevance_score) := by
    rw [responseEvidenceItems, List.map_map,
      show ((fun it : EvidenceItem => it.relevance_score) ∘
        fun p : ℕ × Evidence =>
          ({ citation_number := p.1 + 1
             doc_title := p.2.«section».doc_title
             section_title := p.2.«section».title
             excerpt := p.2.«section».content
             url := p.2.«section».url
             relevance_score := p.2.relevance_score } : EvidenceItem)) =
        ((fun ev : Evidence => ev.relevance_score) ∘ Prod.snd) from rfl,
      ← List.map_map, List.enum_map_snd]
  refine ⟨hperm, hitems, ?_, ?_, ?_, ?_⟩
  · rw [hrel, List.pairwise_map]
    exact sortDesc_sorted (fun ev : Evidence => ev.relevance_score) evidence
  · rw [reconcileAnswer, pass1, pass2,
      pass1_fold_render _ toks hlits,
      pass2_fold_render _ _ (litsClean_map toks _ (fun s => rfl)
        (fun i s => by
          rw [show applyPass1 (sortDesc (fun p : ℕ × ℕ => p.1)
              (citationMapping (sortedEvidence evidence))) (MTok.mark i) =
            (match (sortDesc (fun p : ℕ × ℕ => p.1)
                (citationMapping (sortedEvidence evidence))).find?
                (fun p => p.1 == i) with
             | some p => MTok.temp p.2
             | none => MTok.mark i) from rfl]
          cases (sortDesc (fun p : ℕ × ℕ => p.1)
              (citationMapping (sortedEvidence evidence))).find?
              (fun p => p.1 == i) <;> simp)
        (fun i s => by simp [applyPass1]) hlits),
      List.map_map]
    congr 1
    apply List.map_congr_left
    intro t ht
    cases t with
    | lit s => rfl
    | temp i =>
        have := htoks (MTok.temp i) ht
        simp [tokClean] at this
    | mark i =>
        have hik := htoks (MTok.mark i) ht
        simp only [tokClean, Bool.and_eq_true, decide_eq_true_eq] at hik
        obtain ⟨j, hj, hgetc, hfn, hfind, huniq⟩ :=
          finalNumber_spec (sortedEvidence evidence) hnd i (hin i hik.1 hik.2)
        have hfindsorted : (sortDesc (fun p : ℕ × ℕ => p.1)
            (citationMapping (sortedEvidence evidence))).find?
            (fun p => p.1 == i) = some (i, j + 1) := by
          apply find?_eq_some_of_unique
          · rw [(sortDesc_perm (fun p : ℕ × ℕ => p.1) _).mem_iff]
            exact List.mem_of_find?_eq_some hfind
          · simp
          · intro b hb hbi
            refine huniq b ?_ (by simpa using hbi)
            rw [← (sortDesc_perm (fun p : ℕ × ℕ => p.1) _).mem_iff]
            exact hb
        have hnews : ((citationMapping (sortedEvidence evidence)).map
            (·.2)).contains (j + 1) = true := by
          apply List.elem_eq_true_of_mem
          exact List.mem_map.mpr ⟨(i, j + 1), List.mem_of_find?_eq_some hfind, rfl⟩
        show applyPass2 _ (applyPass1 _ (MTok.mark i)) = _
        rw [show applyPass1 (sortDesc (fun p : ℕ × ℕ => p.1)
            (citationMapping (sortedEvidence evidence))) (MTok.mark i) =
          (match (sortDesc (fun p : ℕ × ℕ => p.1)
              (citationMapping (sortedEvidence evidence))).find?
              (fun p => p.1 == i) with
           | some p => MTok.temp p.2
           | none => MTok.mark i) from rfl,
          hfindsorted]
        show applyPass2 _ (MTok.temp (j + 1)) = _
        rw [show applyPass2 ((citationMapping (sortedEvidence evidence)).map
            (·.2)) (MTok.temp (j + 1)) =
          (if ((citationMapping (sortedEvidence evidence)).map
              (·.2)).contains (j + 1) then MTok.mark (j + 1)
           else MTok.temp (j + 1)) from rfl,
          if_pos hnews]
        show MTok.mark (j + 1) = MTok.mark (finalNumber (sortedEvidence evidence) i)
        rw [hfn]
  · intro i h1 h2
    obtain ⟨j, hj, hgetc, hfn, -, -⟩ :=
      finalNumber_spec (sortedEvidence evidence) hnd i (hin i h1 h2)
    exact ⟨j, hj, hfn, hgetc⟩
  · intro i1 i2 h11 h12 h21 h22 heq
    obtain ⟨j1, hj1, hgetc1, hfn1, -, -⟩ :=
      finalNumber_spec (sortedEvidence evidence) hnd i1 (hin i1 h11 h12)
    obtain ⟨j2, hj2, hgetc2, hfn2, -, -⟩ :=
      finalNumber_spec (sortedEvidence evidence) hnd i2 (hin i2 h21 h22)
    rw [hfn1, hfn2] at heq
    have hj12 : j1 = j2 := by omega
    rw [← hgetc1, ← hgetc2]
    subst hj12
    rfl

/-- Concrete filtered evidence for the C4 witness: citations 1 and 2, the
second carrying the higher relevance score. -/
def c4Evidence : List Evidence :=
  [{ «section» := sectionA, relevance_score := mkRat 4 5, citation_number := 1 },
   { «section» := sectionB, relevance_score := mkRat 9 10, citation_number := 2 }]

/-- Concrete answer-text tokens for the C4 witness. -/
def c4Toks : List MTok :=
  [MTok.lit "Answer ".data, MTok.mark 1, MTok.lit " and ".data, MTok.mark 2]

/-- Witness for C4 at concrete inputs: two evidence items in
relevance-ascending order and an answer citing both. -/
theorem C4_citation_reconciliation_witness :
    (c4Evidence.map (·.citation_number) = List.range' 1 2 ∧
     ∀ t ∈ c4Toks, tokClean 2 t) ∧
    (List.Perm (sortedEvidence c4Evidence) c4Evidence ∧
     (responseEvidenceItems (sortedEvidence c4Evidence)).map (·.citation_number) =
       List.range' 1 c4Evidence.length ∧
     ((responseEvidenceItems (sortedEvidence c4Evidence)).map
       (·.relevance_score)).Pairwise (fun a b => b ≤ a) ∧
     reconcileAnswer c4Evidence (render c4Toks) =
       render (c4Toks.map (fun t =>
         match t with
         | MTok.mark i => MTok.mark (finalNumber (sortedEvidence c4Evidence) i)
         | t => t)) ∧
     (∀ i, 1 ≤ i → i ≤ 2 →
       ∃ j, ∃ hj : j < (sortedEvidence c4Evidence).length,
         finalNumber (sortedEvidence c4Evidence) i = j + 1 ∧
         ((sortedEvidence c4Evidence).get ⟨j, hj⟩).citation_number = i) ∧
     (∀ i1 i2, 1 ≤ i1 → i1 ≤ 2 → 1 ≤ i2 → i2 ≤ 2 →
       finalNumber (sortedEvidence c4Evidence) i1 =
         finalNumber (sortedEvidence c4Evidence) i2 → i1 = i2)) :=
  ⟨⟨by decide, by decide⟩,
    C4_citation_reconciliation c4Evidence 2 (by decide) c4Toks (by decide)⟩

/-! ### Query pipeline orchestration (services/query_service.py) and the
HTTP query route (api/routes/query.py) -/

/-- The refusal message of the insufficient-evidence error raised by
QueryService.query (query_service.py lines 89-92). -/
def insufficientEvidenceMessage : Str :=
  ("Não tenho informação suficiente nas fontes disponíveis para responder " ++
   "a essa pergunta com confiança. Tente reformular a pergunta ou use " ++
   "termos mais específicos relacionados com a documentação técnica.").data

/-- The refusal message of the out-of-scope rejection raised by
QueryValidator.validate (query_validator.py lines 84-87). -/
def outOfScopeMessage : Str :=
  ("Não tenho informação suficiente para responder a essa pergunta. " ++
   "Por favor, faça perguntas sobre a documentação técnica interna.").data

/-- The external collaborators of one query, abstracted: whether the scope
validator classifies the question out of scope, what hybrid search returns,
the reranker's scores, the LLM's generated answer, and the uuid the trace
logger would mint. -/
structure PipelineOracle where
  validator_rejects : Bool
  search_results : List SearchResult
  rerank_scores : List ℚ
  answer : GeneratedAnswer
  trace_id : Str
  deriving DecidableEq

/-- Which effectful stages ran during one pipeline call: whether the answer
generator (LLM) was invoked and whether a trace was persisted. -/
structure PipelineEffects where
  generator_called : Bool
  trace_written : Bool
  deriving DecidableEq

/-- API model QueryResponse (models/api.py), with the externally produced
timestamp and models_used map omitted. -/
structure QueryResponse where
  trace_id : Str
  query : Str
  answer : Str
  evidence : List EvidenceItem
  confidence : Confidence
  generation_time_ms : ℕ
  deriving DecidableEq

/-- QueryService.query (query_service.py lines 40-169): validation, hybrid
search, rerank (zipping scores positionally with sections, lines 66-71),
evidence filtering, the insufficient-evidence abort (lines 87-92, before
context building, generation and trace logging), then context build, answer
generation, trace logging and response assembly with citation
reconciliation (lines 94-157).  The error value models the raised
InsufficientEvidenceError's message. -/
def QueryService.query (cfg : EvidenceConfig) (o : PipelineOracle)
    (question : Str) (max_sources : ℕ) :
    Except Str QueryResponse × PipelineEffects :=
  if o.validator_rejects then
    (Except.error outOfScopeMessage,
     { generator_called := false, trace_written := false })
  else
    let ranked_sections := (o.search_results.zip o.rerank_scores).map
      (fun p => ({ «section» := p.1.«section», rerank_score := p.2 } : RankedSection))
    let filtered_evidence := EvidenceFilter.filter cfg ranked_sections max_sources
    if filtered_evidence.confidence = Confidence.insufficient then
      (Except.error insufficientEvidenceMessage,
       { generator_called := false, trace_written := false })
    else
      (Except.ok
        { trace_id := o.trace_id
          query := question
          answer := reconcileAnswer filtered_evidence.evidence o.answer.text
          evidence := responseEvidenceItems (sortedEvidence filtered_evidence.evidence)
          confidence := filtered_evidence.confidence
          generation_time_ms := o.answer.generation_time_ms },
       { generator_called := true, trace_written := true })

/-- The result of the HTTP query endpoint: a successful JSON response or an
HTTPException with a status code. -/
inductive RouteResult where
  | success : QueryResponse → RouteResult
  | http_error : ℕ → RouteResult
  deriving DecidableEq

/-- The query endpoint (api/routes/query.py lines 17-65): an
InsufficientEvidenceError is caught and converted into a successful
response with the error text as answer, confidence insufficient, empty
evidence, empty trace id and zero generation time; only other exceptions
(which this model's pipeline never produces) map to HTTP 500. -/
def queryRoute (cfg : EvidenceConfig) (o : PipelineOracle)
    (question : Str) (max_sources : ℕ) : RouteResult × PipelineEffects :=
  match QueryService.query cfg o question max_sources with
  | (Except.ok resp, eff) => (RouteResult.success resp, eff)
  | (Except.error msg, eff) =>
      (RouteResult.success
        { trace_id := []
          query := question
          answer := msg
          evidence := []
          confidence := Confidence.insufficient
          generation_time_ms := 0 }, eff)

/-! ### Trace lookup route (api/routes/trace.py) -/

/-- A persisted query trace row (the part the lookup claim needs). -/
structure TraceRecord where
  trace_id : Str
  query_text : Str
  deriving DecidableEq

/-- Python uuid.UUID(s) accepts exactly 32 hexadecimal digits after
stripping decoration; the model keeps the property used here: parsing
succeeds only when the hex-digit count is 32, so never for the empty
string. -/
def parseUUID (s : Str) : Option Str :=
  if (s.filter (fun c => c.isDigit ||
      ('a' ≤ c && c ≤ 'f') || ('A' ≤ c && c ≤ 'F'))).length = 32
  then some s else none

/-- The result of the trace endpoint: success, a FastAPI path-parameter
validation failure (non-UUID trace id), or 404. -/
inductive TraceRouteResult where
  | success : TraceRecord → TraceRouteResult
  | validation_error : TraceRouteResult
  | not_found : TraceRouteResult
  deriving DecidableEq

/-- The trace endpoint (api/routes/trace.py lines 16-63): FastAPI parses
the path parameter as a UUID, then the trace is looked up by id. -/
def getTrace (db : List TraceRecord) (trace_id : Str) : TraceRouteResult :=
  match parseUUID trace_id with
  | none => TraceRouteResult.validation_error
  | some tid =>
      match db.find? (fun t => t.trace_id == tid) with
      | some t => TraceRouteResult.success t
      | none => TraceRouteResult.not_found

/-! ### Database writer (workers/ingestion/database_writer.py) -/

/-- Parsed section data (markdown_parser.py SectionData); the embedding is
attached dynamically by the embedder worker, hence optional. -/
structure SectionData where
  title : Option Str
  content : Str
  order : ℕ
  has_code : Bool
  has_images : Bool
  embedding : Option (List ℚ)
  deriving DecidableEq

/-- Parsed document data (markdown_parser.py DocumentData), without the
image payloads that the writer reads from the filesystem. -/
structure DocumentData where
  file_path : Str
  title : Str
  url : Option Str
  breadcrumb : List Str
  content_hash : Str
  sections : List SectionData
  deriving DecidableEq

/-- A stored document row (models/database.py DocumentModel). -/
structure StoredDocument where
  doc_id : ℕ
  title : Str
  url : Option Str
  file_path : Str
  breadcrumb : List Str
  content_hash : Str
  deriving DecidableEq

/-- A stored section row (models/database.py DocumentSectionModel). -/
structure StoredSection where
  doc_id : ℕ
  title : Option Str
  content : Str
  embedding : Option (List ℚ)
  section_order : ℕ
  has_code : Bool
  has_images : Bool
  deriving DecidableEq

/-- The document and section tables plus an id counter. -/
structure Database where
  documents : List StoredDocument
  sections : List StoredSection
  next_id : ℕ
  deriving DecidableEq

/-- WriteResult (database_writer.py lines 16-21). -/
structure WriteResult where
  updated : ℕ
  added : ℕ
  deleted : ℕ
  deriving DecidableEq

/-- The section rows created for a document (database_writer.py lines
64-76 and 102-114). -/
def newSectionRows (doc_id : ℕ) (sections : List SectionData) :
    List StoredSection :=
  sections.map (fun sd =>
    { doc_id := doc_id
      title := sd.title
      content := sd.content
      embedding := sd.embedding
      section_order := sd.order
      has_code := sd.has_code
      has_images := sd.has_images })

/-- DatabaseWriter._create_document (database_writer.py lines 51-82). -/
def DatabaseWriter.create_document (db : Database) (document : DocumentData) :
    Database × WriteResult :=
  ({ documents := db.documents ++
      [{ doc_id := db.next_id
         title := document.title
         url := document.url
         file_path := document.file_path
         breadcrumb := document.breadcrumb
         content_hash := document.content_hash }]
     sections := db.sections ++ newSectionRows db.next_id document.sections
     next_id := db.next_id + 1 },
   { updated := 0, added := document.sections.length, deleted := 0 })

/-- DatabaseWriter._update_document (database_writer.py lines 84-120):
update the document metadata in place, delete its old sections, insert the
new ones. -/
def DatabaseWriter.update_document (db : Database)
    (existing_doc : StoredDocument) (document : DocumentData) :
    Database × WriteResult :=
  let old_sections := db.sections.filter (fun s => s.doc_id == existing_doc.doc_id)
  ({ documents := db.documents.map (fun d =>
      if d.doc_id == existing_doc.doc_id then
        { d with
          title := document.title
          url := document.url
          breadcrumb := document.breadcrumb
          content_hash := document.content_hash }
      else d)
     sections := db.sections.filter (fun s => ! (s.doc_id == existing_doc.doc_id))
        ++ newSectionRows existing_doc.doc_id document.sections
     next_id := db.next_id },
   { updated := document.sections.length
     added := 0
     deleted := old_sections.length })

/-- DatabaseWriter.write (database_writer.py lines 30-49): look the document
up by file path; update when the content hash changed, skip when unchanged,
create when new. -/
def DatabaseWriter.write (db : Database) (document : DocumentData) :
    Database × WriteResult :=
  match db.documents.find? (fun d => d.file_path == document.file_path) with
  | some existing_doc =>
      if existing_doc.content_hash ≠ document.content_hash then
        DatabaseWriter.update_document db existing_doc document
      else
        (db, { updated := 0, added := 0, deleted := 0 })
  | none => DatabaseWriter.create_document db document

/-! ### Claim theorems C5, C9, C10 -/

/-- C5: when the evidence filter yields insufficient confidence (or the
scope validator rejects the query), the pipeline invokes no answer
generation and writes no trace, and the caller receives a successful
response with confidence insufficient, empty evidence and no generated
answer (the answer field carries only the refusal message) — never an
error. -/
theorem C5_insufficient_is_nonerror_outcome (cfg : EvidenceConfig)
    (o : PipelineOracle) (question : Str) (max_sources : ℕ)
    (h : o.validator_rejects = true ∨
      (EvidenceFilter.filter cfg
        ((o.search_results.zip o.rerank_scores).map
          (fun p => ({ «section» := p.1.«section»,
                       rerank_score := p.2 } : RankedSection)))
        max_sources).confidence = Confidence.insufficient) :
    ((queryRoute cfg o question max_sources).2.generator_called = false ∧
     (queryRoute cfg o question max_sources).2.trace_written = false) ∧
    ∃ resp, (queryRoute cfg o question max_sources).1 = RouteResult.success resp ∧
      resp.confidence = Confidence.insufficient ∧
      resp.evidence = [] ∧
      resp.trace_id = [] ∧
      (resp.answer = outOfScopeMessage ∨
       resp.answer = insufficientEvidenceMessage) := by
  by_cases hv : o.validator_rejects = true
  · refine ⟨⟨?_, ?_⟩, ?_⟩ <;>
      simp [queryRoute, QueryService.query, hv]
  · rcases h with h | h
    · exact absurd h hv
    · have hv2 : o.validator_rejects = false := by
        cases hval : o.validator_rejects
        · rfl
        · exact absurd hval hv
      refine ⟨⟨?_, ?_⟩, ?_⟩ <;>
        simp [queryRoute, QueryService.query, hv2, h]

/-- Witness for C5: a query over an empty corpus (no search results) with
the default thresholds yields n = 0 retained candidates, hence
insufficient. -/
theorem C5_insufficient_is_nonerror_outcome_witness :
    (({ validator_rejects := false
        search_results := []
        rerank_scores := []
        answer := { text := [], generation_time_ms := 7, token_count := none }
        trace_id := [Char.ofNat 117] } : PipelineOracle).validator_rejects = true ∨
      (EvidenceFilter.filter defaultEvidenceConfig
        ((([] : List SearchResult).zip ([] : List ℚ)).map
          (fun p => ({ «section» := p.1.«section»,
                       rerank_score := p.2 } : RankedSection)))
        5).confidence = Confidence.insufficient) ∧
    (((queryRoute defaultEvidenceConfig
        { validator_rejects := false
          search_results := []
          rerank_scores := []
          answer := { text := [], generation_time_ms := 7, token_count := none }
          trace_id := [Char.ofNat 117] } [Char.ofNat 113] 5).2.generator_called =
            false ∧
      (queryRoute defaultEvidenceConfig
        { validator_rejects := false
          search_results := []
          rerank_scores := []
          answer := { text := [], generation_time_ms := 7, token_count := none }
          trace_id := [Char.ofNat 117] } [Char.ofNat 113] 5).2.trace_written =
            false) ∧
     ∃ resp, (queryRoute defaultEvidenceConfig
        { validator_rejects := false
          search_results := []
          rerank_scores := []
          answer := { text := [], generation_time_ms := 7, token_count := none }
          trace_id := [Char.ofNat 117] } [Char.ofNat 113] 5).1 =
          RouteResult.success resp ∧
        resp.confidence = Confidence.insufficient ∧
        resp.evidence = [] ∧
        resp.trace_id = [] ∧
        (resp.answer = outOfScopeMessage ∨
         resp.answer = insufficientEvidenceMessage)) :=
  ⟨Or.inr (by decide),
    C5_insufficient_is_nonerror_outcome defaultEvidenceConfig
      { validator_rejects := false
        search_results := []
        rerank_scores := []
        answer := { text := [], generation_time_ms := 7, token_count := none }
        trace_id := [Char.ofNat 117] } [Char.ofNat 113] 5 (Or.inr (by decide))⟩

/-- The pipeline's effects when it raises: no generator call, no trace. -/
theorem query_error_effects (cfg : EvidenceConfig) (o : PipelineOracle)
    (question : Str) (max_sources : ℕ) (msg : Str)
    (h : (QueryService.query cfg o question max_sources).1 = Except.error msg) :
    (QueryService.query cfg o question max_sources).2 =
      { generator_called := false, trace_written := false } := by
  by_cases hv : o.validator_rejects = true
  · simp [QueryService.query, hv]
  · have hv2 : o.validator_rejects = false := by
      cases hval : o.validator_rejects
      · rfl
      · exact absurd hval hv
    by_cases hc : (EvidenceFilter.filter cfg
        ((o.search_results.zip o.rerank_scores).map
          (fun p => ({ «section» := p.1.«section»,
                       rerank_score := p.2 } : RankedSection)))
        max_sources).confidence = Confidence.insufficient
    · simp [QueryService.query, hv2, hc]
    · rw [QueryService.query] at h ⊢
      simp only [hv2, Bool.false_eq_true, if_false, hc, if_neg hc] at h
      cases h

/-- C10: whenever the pipeline raises InsufficientEvidenceError, the HTTP
query endpoint returns a QueryResponse with empty trace_id, zero
generation_time_ms, empty evidence and the refusal message as answer; no
trace was persisted for this response, and the trace-lookup route can never
resolve the empty trace_id (the UUID path parameter fails validation). -/
theorem C10_error_response_untraceable (cfg : EvidenceConfig)
    (o : PipelineOracle) (question : Str) (max_sources : ℕ) (msg : Str)
    (h : (QueryService.query cfg o question max_sources).1 = Except.error msg) :
    (queryRoute cfg o question max_sources).1 = RouteResult.success
      { trace_id := []
        query := question
        answer := msg
        evidence := []
        confidence := Confidence.insufficient
        generation_time_ms := 0 } ∧
    (queryRoute cfg o question max_sources).2.trace_written = false ∧
    (∀ db : List TraceRecord, getTrace db [] = TraceRouteResult.validation_error) := by
  refine ⟨?_, ?_, fun db => by simp [getTrace, parseUUID]⟩
  · rw [queryRoute]
    rcases hq : QueryService.query cfg o question max_sources with ⟨r, eff⟩
    rw [hq] at h
    simp only at h
    rw [h]
  · have heff := query_error_effects cfg o question max_sources msg h
    rw [queryRoute]
    rcases hq : QueryService.query cfg o question max_sources with ⟨r, eff⟩
    rw [hq] at h heff
    simp only at h heff
    rw [h, heff]

/-- Witness for C10: the scope validator rejects the query. -/
theorem C10_error_response_untraceable_witness :
    ((QueryService.query defaultEvidenceConfig
      { validator_rejects := true
        search_results := []
        rerank_scores := []
        answer := { text := [], generation_time_ms := 3, token_count := none }
        trace_id := [Char.ofNat 117] } [Char.ofNat 113] 5).1 =
        Except.error outOfScopeMessage) ∧
    ((queryRoute defaultEvidenceConfig
      { validator_rejects := true
        search_results := []
        rerank_scores := []
        answer := { text := [], generation_time_ms := 3, token_count := none }
        trace_id := [Char.ofNat 117] } [Char.ofNat 113] 5).1 =
      RouteResult.success
        { trace_id := []
          query := [Char.ofNat 113]
          answer := outOfScopeMessage
          evidence := []
          confidence := Confidence.insufficient
          generation_time_ms := 0 } ∧
     (queryRoute defaultEvidenceConfig
      { validator_rejects := true
        search_results := []
        rerank_scores := []
        answer := { text := [], generation_time_ms := 3, token_count := none }
        trace_id := [Char.ofNat 117] } [Char.ofNat 113] 5).2.trace_written = false ∧
     (∀ db : List TraceRecord,
        getTrace db [] = TraceRouteResult.validation_error)) :=
  ⟨rfl,
    C10_error_response_untraceable defaultEvidenceConfig
      { validator_rejects := true
        search_results := []
        rerank_scores := []
        answer := { text := [], generation_time_ms := 3, token_count := none }
        trace_id := [Char.ofNat 117] } [Char.ofNat 113] 5 outOfScopeMessage rfl⟩

/-- C9: DatabaseWriter.write is idempotent on unchanged content:
re-ingesting a document whose file_path matches a stored document with the
same content_hash returns WriteResult(updated=0, added=0, deleted=0) and
leaves the database (documents and sections) unchanged. -/
theorem C9_write_idempotent_on_unchanged (db : Database)
    (document : DocumentData) (existing_doc : StoredDocument)
    (hfind : db.documents.find? (fun d => d.file_path == document.file_path) =
      some existing_doc)
    (hhash : existing_doc.content_hash = document.content_hash) :
    DatabaseWriter.write db document =
      (db, { updated := 0, added := 0, deleted := 0 }) := by
  rw [DatabaseWriter.write, hfind]
  simp [hhash]

/-- A concrete stored document for the C9 witness. -/
def storedDocA : StoredDocument :=
  { doc_id := 1
    title := [Char.ofNat 84]
    url := none
    file_path := [Char.ofNat 102]
    breadcrumb := []
    content_hash := [Char.ofNat 104] }

/-- A concrete database for the C9 witness. -/
def dbA : Database :=
  { documents := [storedDocA]
    sections := [{ doc_id := 1, title := none, content := [Char.ofNat 120],
                   embedding := none, section_order := 0, has_code := false,
                   has_images := false }]
    next_id := 2 }

/-- A re-ingested document with the same path and hash for the C9 witness. -/
def docDataA : DocumentData :=
  { file_path := [Char.ofNat 102]
    title := [Char.ofNat 84]
    url := none
    breadcrumb := []
    content_hash := [Char.ofNat 104]
    sections := [{ title := none, content := [Char.ofNat 120], order := 0,
                   has_code := false, has_images := false, embedding := none }] }

/-- Witness for C9: re-ingesting the unchanged document changes nothing. -/
theorem C9_write_idempotent_on_unchanged_witness :
    (dbA.documents.find? (fun d => d.file_path == docDataA.file_path) =
      some storedDocA ∧
     storedDocA.content_hash = docDataA.content_hash) ∧
    DatabaseWriter.write dbA docDataA =
      (dbA, { updated := 0, added := 0, deleted := 0 }) :=
  ⟨⟨by decide, by decide⟩,
    C9_write_idempotent_on_unchanged dbA docDataA storedDocA (by decide) (by decide)⟩

end RagSystem
